import Mathlib

/-!
Verification development for the ADF (Atlassian Document Format) conversion core
of the Jira MCP server (src/handlers.ts).

The JavaScript source manipulates untyped JSON-like values (`any`).  We embed
those values as the inductive type `JVal` below.  JavaScript strings are
modelled as Lean `String`s, with the string primitives the source uses
(`trim`, `split`, `startsWith`, `endsWith`, `substring`, `join`, `replace`,
`repeat`) re-implemented explicitly over the character list so that every
definition is executable and provable.  JavaScript numbers are modelled as
`Int` (the source only ever stores and compares small integers).  Code that
can throw a runtime `TypeError`/`RangeError` (calling `.map` on a truthy
non-array, `'#'.repeat` of a negative count) is modelled in the `Option`
monad, `none` standing for a thrown exception.
-/

/-- A JavaScript/JSON value as manipulated by the conversion functions.
`null` also stands for `undefined`: the source only ever distinguishes the
two through truthiness tests and optional chaining, which treat them alike. -/
inductive JVal where
  | null : JVal
  | bool : Bool → JVal
  | num : Int → JVal
  | str : String → JVal
  | arr : List JVal → JVal
  | obj : List (String × JVal) → JVal

/-- JavaScript truthiness of a value (`if (v)`).-/
def JVal.truthy : JVal → Bool
  | .null => false
  | .bool b => b
  | .num n => n != 0
  | .str s => s != ""
  | .arr _ => true
  | .obj _ => true

/-- `Array.isArray(v)`. -/
def JVal.isArr : JVal → Bool
  | .arr _ => true
  | _ => false

/-- `v !== null && typeof v === 'object'` (arrays are objects in JavaScript). -/
def JVal.isObjLike : JVal → Bool
  | .arr _ => true
  | .obj _ => true
  | _ => false

/-- Property lookup in an object's field list (own properties only). -/
def lookupFields : List (String × JVal) → String → JVal
  | [], _ => .null
  | (k', v) :: rest, k => if k' = k then v else lookupFields rest k

/-- `v.k` — property access; `undefined` (here `.null`) on non-objects, which
also models the optional-chaining accesses (`v?.k`) in the source. -/
def JVal.getProp : JVal → String → JVal
  | .obj fields, k => lookupFields fields k
  | _, _ => .null

/-! ### JavaScript string primitives, modelled over `List Char` -/

/-- Whitespace for `String.prototype.trim` (the ASCII part; the source never
feeds the exotic Unicode space characters through `trim`). -/
def isJsWs (c : Char) : Bool :=
  c == ' ' || c == '\t' || c == '\n' || c == '\r' || c == '\x0b' || c == '\x0c'

/-- `trim()` on the character list: drop leading then trailing whitespace. -/
def trimChars (l : List Char) : List Char :=
  (l.dropWhile isJsWs).rdropWhile isJsWs

/-- `s.trim()`. -/
def jsTrim (s : String) : String :=
  String.mk (trimChars s.data)

/-- `s.split("\n")` on the character list. -/
def splitNlChars : List Char → List (List Char)
  | [] => [[]]
  | c :: rest =>
    if c = '\n' then [] :: splitNlChars rest
    else
      match splitNlChars rest with
      | [] => [[c]]
      | h :: t => (c :: h) :: t

/-- `s.split("\n")`. -/
def jsSplitNl (s : String) : List String :=
  (splitNlChars s.data).map String.mk

/-- `parts.join(sep)` (JavaScript `Array.prototype.join` semantics: empty
array joins to the empty string). -/
def jsJoin (sep : String) : List String → String
  | [] => ""
  | h :: t => t.foldl (fun acc x => acc ++ sep ++ x) h

/-- `s.startsWith(p)`. -/
def jsStartsWith (s p : String) : Bool :=
  p.data.isPrefixOf s.data

/-- `s.endsWith(p)`. -/
def jsEndsWith (s p : String) : Bool :=
  p.data.isSuffixOf s.data

/-- `s.substring(n)` / dropping the first `n` characters. -/
def jsDrop (s : String) (n : Nat) : String :=
  String.mk (s.data.drop n)

/-- `s.length` (the source only measures strings of plain ASCII/BMP text, so
UTF-16 code-unit length coincides with character count). -/
def jsLength (s : String) : Nat :=
  s.data.length

/-- `content.replace(/\n/g, '\n  ')` — re-indent after every newline. -/
def indentNlChars : List Char → List Char
  | [] => []
  | c :: cs =>
    if c = '\n' then '\n' :: ' ' :: ' ' :: indentNlChars cs
    else c :: indentNlChars cs

/-- `s.replace(/\n/g, '\n  ')`. -/
def jsIndentNl (s : String) : String :=
  String.mk (indentNlChars s.data)

/-- `cellContent.replace(/\|/g, '\\|')` — escape pipe characters. -/
def escapePipesChars : List Char → List Char
  | [] => []
  | c :: cs =>
    if c = '|' then '\\' :: '|' :: escapePipesChars cs
    else c :: escapePipesChars cs

/-- `s.replace(/\|/g, '\\|')`. -/
def jsEscapePipes (s : String) : String :=
  String.mk (escapePipesChars s.data)

/-! ### Size lemmas used for termination of the tree walk -/

theorem JVal.sizeOf_pos (v : JVal) : 1 ≤ sizeOf v := by
  cases v <;> simp

theorem sizeOf_lookupFields_le (fields : List (String × JVal)) (k : String) :
    sizeOf (lookupFields fields k) ≤ 1 + sizeOf fields := by
  induction fields with
  | nil => simp [lookupFields]
  | cons p rest ih =>
    obtain ⟨k', v⟩ := p
    simp only [lookupFields]
    split
    · simp; omega
    · simp; omega

theorem sizeOf_getProp_le (v : JVal) (k : String) : sizeOf (v.getProp k) ≤ sizeOf v := by
  cases v with
  | obj fields =>
    have h := sizeOf_lookupFields_le fields k
    simp only [JVal.getProp]
    simp
    omega
  | null => simp [JVal.getProp]
  | bool b => simp [JVal.getProp]
  | num n => simp [JVal.getProp]
  | str s => simp [JVal.getProp]
  | arr xs => simp [JVal.getProp]

theorem sizeOf_getProp_arr_lt {v : JVal} {k : String} {xs : List JVal}
    (h : v.getProp k = .arr xs) : sizeOf xs < sizeOf v := by
  have h1 := sizeOf_getProp_le v k
  rw [h] at h1
  simp at h1
  omega

/-! ### JavaScript value-to-string coercion -/

mutual

/-- JavaScript string coercion `String(v)`, as performed by template-literal
interpolation and by `Array.prototype.join` on non-string elements.  Array
elements that are `null`/`undefined` coerce to the empty string inside a
joined array. -/
def jsToString : JVal → String
  | .null => "null"
  | .bool b => if b then "true" else "false"
  | .num n => toString n
  | .str s => s
  | .arr xs => jsJoin "," (jsToStringElems xs)
  | .obj _ => "[object Object]"

def jsToStringElems : List JVal → List String
  | [] => []
  | x :: xs =>
    (match x with
     | .null => ""
     | x => jsToString x) :: jsToStringElems xs

end

/-! ### Marks and heading levels -/

/-- One iteration of the mark loop in the `text` case of `processNode`
(src/handlers.ts lines 889-910): a `switch` on `mark.type` wrapping the
accumulated text, reading `mark.attrs?.href || ''` for links. -/
def applyMark (text : String) (mark : JVal) : String :=
  match mark.getProp "type" with
  | .str ty =>
    if ty = "strong" then "**" ++ text ++ "**"
    else if ty = "em" then "*" ++ text ++ "*"
    else if ty = "code" then "`" ++ text ++ "`"
    else if ty = "strike" then "~~" ++ text ++ "~~"
    else if ty = "link" then
      let href := (mark.getProp "attrs").getProp "href"
      "[" ++ text ++ "](" ++ (if href.truthy then jsToString href else "") ++ ")"
    else text
  | _ => text

/-- The `if (node.marks) { for (const mark of node.marks) ... }` loop.
Iterating `for...of` over a truthy non-iterable value throws a `TypeError`
(modelled as `none`); iterating over a string visits its one-character
strings, whose `.type` is `undefined`, so no case matches and the text is
returned unchanged. -/
def foldMarks (text : String) (marks : JVal) : Option String :=
  if marks.truthy then
    match marks with
    | .arr ms => some (ms.foldl applyMark text)
    | .str _ => some text
    | _ => none
  else some text

/-- `'#'.repeat(count)` argument handling: JavaScript coerces the count with
`ToIntegerOrInfinity` and throws a `RangeError` for a negative count
(modelled as `none`).  Values that coerce to `NaN` (non-numeric strings,
plain objects) coerce to 0.  Fractional numeric strings and numeric
singleton arrays are not modelled exactly (the source only ever sees
integer heading levels); like the other non-integer cases they map to 0. -/
def jsRepeatCount : JVal → Option Nat
  | .num n => if n < 0 then none else some n.toNat
  | .str s =>
    match s.toInt? with
    | some n => if n < 0 then none else some n.toNat
    | none => some 0
  | .bool b => some (if b then 1 else 0)
  | .null => some 0
  | .arr _ => some 0
  | .obj _ => some 0

/-- The two list flavours, `'bullet' | 'ordered'` in the source. -/
inductive ListKind where
  | bullet : ListKind
  | ordered : ListKind
deriving DecidableEq

/-! ### The Document → Markdown renderer (src/handlers.ts lines 878-1032)

`processNode`'s `switch` is embedded as a dispatch chain split across small
helper definitions (`processNodeTyped` for the switch on the `type` value,
`processNodeStr` for the string cases, and one definition per non-leaf
branch body); the split is purely presentational — inlining them yields
exactly the `switch` statement of the source. -/

/-- The `image` case: `![alt](src)` with both attributes defaulting to the
empty string. -/
def processImage (node : JVal) : Option String :=
  let alt :=
    let a := (node.getProp "attrs").getProp "alt"
    if a.truthy then jsToString a else ""
  let src :=
    let a := (node.getProp "attrs").getProp "src"
    if a.truthy then jsToString a else ""
  some ("![" ++ alt ++ "](" ++ src ++ ")")

mutual

/-- Embedding of `processNode` (src/handlers.ts lines 878-963): a falsy node
or falsy `type` renders as the empty string, otherwise the `switch` on
`node.type` runs (`processNodeTyped`). -/
def processNode (node : JVal) : Option String :=
  if !node.truthy || !(node.getProp "type").truthy then some ""
  else processNodeTyped node (node.getProp "type")
termination_by 5 * sizeOf node + 4
decreasing_by
all_goals simp_wf
all_goals have h1 := sizeOf_getProp_le node "type"
all_goals omega

/-- The `switch (node.type)`: only string values match a `case` label; any
other (truthy) tag falls to the default arm, which concatenates the
rendered children. -/
def processNodeTyped (node : JVal) (ty : JVal) : Option String :=
  match ty with
  | .str s => processNodeStr node s
  | .null => joinContent node ""
  | .bool _ => joinContent node ""
  | .num _ => joinContent node ""
  | .arr _ => joinContent node ""
  | .obj _ => joinContent node ""
termination_by 5 * sizeOf node + 3
decreasing_by
all_goals simp_wf
all_goals omega

/-- The `case` labels of the `switch`, in source order. -/
def processNodeStr (node : JVal) (ty : String) : Option String :=
  if ty = "doc" then joinContent node "\n\n"
  else if ty = "paragraph" then joinContent node ""
  else if ty = "text" then
    let t0 := node.getProp "text"
    foldMarks (if t0.truthy then jsToString t0 else "") (node.getProp "marks")
  else if ty = "heading" then processHeading node
  else if ty = "bulletList" then processListNodes node ListKind.bullet
  else if ty = "orderedList" then processListNodes node ListKind.ordered
  else if ty = "listItem" then joinContent node "\n"
  else if ty = "codeBlock" then processCodeBlock node
  else if ty = "blockquote" then processBlockquote node
  else if ty = "rule" then some "---"
  else if ty = "table" then processTable node
  else if ty = "image" then processImage node
  else if ty = "hardBreak" then some "\n"
  else joinContent node ""
termination_by 5 * sizeOf node + 2
decreasing_by
all_goals simp_wf
all_goals omega

/-- `node.content ? node.content.map((n) => processNode(n)).join(sep) : ''`,
the body of the `doc`, `paragraph`, `listItem` and default arms. -/
def joinContent (node : JVal) (sep : String) : Option String :=
  match processContent (node.getProp "content") with
  | none => none
  | some rs => some (jsJoin sep rs)
termination_by 5 * sizeOf node + 1
decreasing_by
all_goals simp_wf
all_goals have h1 := sizeOf_getProp_le node "content"
all_goals omega

/-- The `heading` arm: `'#'.repeat(node.attrs?.level || 1)`, a space, and
the concatenated children. -/
def processHeading (node : JVal) : Option String :=
  let lvl :=
    let l := (node.getProp "attrs").getProp "level"
    if l.truthy then l else .num 1
  match jsRepeatCount lvl with
  | none => none
  | some k =>
    match processContent (node.getProp "content") with
    | none => none
    | some rs => some (String.mk (List.replicate k '#') ++ " " ++ jsJoin "" rs)
termination_by 5 * sizeOf node + 1
decreasing_by
all_goals simp_wf
all_goals have h1 := sizeOf_getProp_le node "content"
all_goals omega

/-- The `bulletList`/`orderedList` arms: items rendered through
`processListItem` (ordered items with their 1-based index) and
newline-joined. -/
def processListNodes (node : JVal) (kind : ListKind) : Option String :=
  match processItemsContent (node.getProp "content") kind with
  | none => none
  | some rs => some (jsJoin "\n" rs)
termination_by 5 * sizeOf node + 1
decreasing_by
all_goals simp_wf
all_goals have h1 := sizeOf_getProp_le node "content"
all_goals omega

/-- The `codeBlock` arm: a fenced block with the optional language tag. -/
def processCodeBlock (node : JVal) : Option String :=
  let lang :=
    let l := (node.getProp "attrs").getProp "language"
    if l.truthy then jsToString l else ""
  match processContent (node.getProp "content") with
  | none => none
  | some rs => some ("```" ++ lang ++ "\n" ++ jsJoin "\n" rs ++ "\n```")
termination_by 5 * sizeOf node + 1
decreasing_by
all_goals simp_wf
all_goals have h1 := sizeOf_getProp_le node "content"
all_goals omega

/-- The `blockquote` arm: children joined by blank lines, then every line of
the result prefixed with `"> "`. -/
def processBlockquote (node : JVal) : Option String :=
  match processContent (node.getProp "content") with
  | none => none
  | some rs =>
    some (jsJoin "\n" ((jsSplitNl (jsJoin "\n\n" rs)).map (fun line => "> " ++ line)))
termination_by 5 * sizeOf node + 1
decreasing_by
all_goals simp_wf
all_goals have h1 := sizeOf_getProp_le node "content"
all_goals omega

/-- The `c ? c.map((n) => processNode(n)).join(sep) : ''` pattern, shared by
every content-walking case, written out per constructor: a truthy non-array
`content` has no `.map` and throws a `TypeError` (`none`); falsy `content`
(`null`/`undefined`, `false`, `0`, `''`) contributes no children. -/
def processContent : JVal → Option (List String)
  | .arr xs => processNodeList xs
  | .null => some []
  | .bool b => if b then none else some []
  | .num n => if n != 0 then none else some []
  | .str s => if s != "" then none else some []
  | .obj _ => none
termination_by c => 5 * sizeOf c
decreasing_by
all_goals simp_wf
all_goals try simp
all_goals omega

/-- `xs.map(processNode)`, short-circuiting on a thrown exception. -/
def processNodeList : List JVal → Option (List String)
  | [] => some []
  | x :: xs =>
    match processNode x with
    | none => none
    | some r =>
      match processNodeList xs with
      | none => none
      | some rs => some (r :: rs)
termination_by xs => 5 * sizeOf xs
decreasing_by
all_goals simp_wf
all_goals try simp
all_goals omega

/-- The `node.content ? node.content.map((item, index) =>
processListItem(item, kind, index + 1)).join('...') : ''` pattern of the
`bulletList`/`orderedList` cases (the bullet map ignores the index). -/
def processItemsContent (c : JVal) (kind : ListKind) : Option (List String) :=
  match c with
  | .arr xs => processItems kind 1 xs
  | .null => some []
  | .bool b => if b then none else some []
  | .num n => if n != 0 then none else some []
  | .str s => if s != "" then none else some []
  | .obj _ => none
termination_by 5 * sizeOf c
decreasing_by
all_goals simp_wf
all_goals try simp
all_goals omega

/-- The indexed map over list items. -/
def processItems (kind : ListKind) (index : Nat) : List JVal → Option (List String)
  | [] => some []
  | x :: xs =>
    match processListItem x kind index with
    | none => none
    | some r =>
      match processItems kind (index + 1) xs with
      | none => none
      | some rs => some (r :: rs)
termination_by xs => 5 * sizeOf xs
decreasing_by
all_goals simp_wf
all_goals try simp
all_goals omega

/-- Embedding of `processListItem` (src/handlers.ts lines 1019-1032):
children rendered and joined with the empty string, then the list prefix is
prepended and every internal newline is re-indented by two spaces. -/
def processListItem (node : JVal) (listType : ListKind) (index : Nat) : Option String :=
  let pfx :=
    match listType with
    | ListKind.bullet => "- "
    | ListKind.ordered => toString index ++ ". "
  match processContent (node.getProp "content") with
  | none => none
  | some rs => some (pfx ++ jsIndentNl (jsJoin "" rs))
termination_by 5 * sizeOf node + 1
decreasing_by
all_goals simp_wf
all_goals have h1 := sizeOf_getProp_le node "content"
all_goals omega

/-- Embedding of `processTable` (src/handlers.ts lines 965-1011). -/
def processTable (node : JVal) : Option String :=
  match h : node.getProp "content" with
  | .arr rows =>
    if rows.isEmpty then some ""
    else
      match processRows rows with
      | none => none
      | some tableRows =>
        match tableRows with
        | [] => some ""
        | headerRow :: bodyRows =>
          some (jsJoin "\n"
            (("| " ++ jsJoin " | " headerRow ++ " |")
              :: ("| " ++ jsJoin " | " (headerRow.map (fun _ => "---")) ++ " |")
              :: bodyRows.map (fun row => "| " ++ jsJoin " | " row ++ " |")))
  | _ => some ""
termination_by 5 * sizeOf node
decreasing_by
all_goals simp_wf
all_goals have h1 := sizeOf_getProp_arr_lt h
all_goals omega

/-- The row loop of `processTable`: a row whose `content` is not an array is
skipped. -/
def processRows : List JVal → Option (List (List String))
  | [] => some []
  | row :: rest =>
    match h : row.getProp "content" with
    | .arr cells =>
      match processCells cells with
      | none => none
      | some cs =>
        match processRows rest with
        | none => none
        | some rss => some (cs :: rss)
    | _ => processRows rest
termination_by rows => 5 * sizeOf rows
decreasing_by
all_goals simp_wf
all_goals try have h1 := sizeOf_getProp_arr_lt h
all_goals try simp
all_goals omega

/-- The cell loop of `processTable`: the children of each cell concatenated,
then pipe characters escaped. -/
def processCells : List JVal → Option (List String)
  | [] => some []
  | cell :: rest =>
    match processContent (cell.getProp "content") with
    | none => none
    | some rs =>
      match processCells rest with
      | none => none
      | some cs => some (jsEscapePipes (jsJoin "" rs) :: cs)
termination_by cells => 5 * sizeOf cells
decreasing_by
all_goals simp_wf
all_goals first
| (refine lt_of_le_of_lt (sizeOf_getProp_le _ "content") ?_ ; try simp
   omega)
| (refine lt_of_le_of_lt (mul_le_mul_left' (sizeOf_getProp_le _ "content") 5) ?_ ; try simp
   omega)
| (simp ; omega)
| omega

end

/-- Embedding of `convertADFToMarkdown` (src/handlers.ts lines 859-872):
non-object input yields `''`; the `content` property is used when truthy,
else the value itself; a non-array content yields `''`; otherwise the
rendered children are joined by blank lines and the result is trimmed. -/
def convertADFToMarkdown (adf : JVal) : Option String :=
  if !(adf.truthy && adf.isObjLike) then some ""
  else
    let content := if (adf.getProp "content").truthy then adf.getProp "content" else adf
    match content with
    | .arr xs =>
      match processNodeList xs with
      | none => none
      | some rs => some (jsTrim (jsJoin "\n\n" rs))
    | _ => some ""

/-! ### The Text → ADF encoder (src/handlers.ts lines 736-847) -/

/-- `{ type: "text", text: s }`. -/
def mkTextNode (s : String) : JVal :=
  .obj [("type", .str "text"), ("text", .str s)]

/-- `{ type: "paragraph", content: [ { type: "text", text: s } ] }`. -/
def mkParagraphNode (s : String) : JVal :=
  .obj [("type", .str "paragraph"), ("content", .arr [mkTextNode s])]

/-- The list-item node pushed for a bullet or numbered line:
`{ type: "listItem", content: [ paragraph [ text ] ] }`. -/
def mkListItemNode (s : String) : JVal :=
  .obj [("type", .str "listItem"), ("content", .arr [mkParagraphNode s])]

/-- The heading node pushed by the heading branch:
`{ type: "heading", attrs: { level: 2 }, content: [ text ] }`. -/
def mkHeadingNode (s : String) : JVal :=
  .obj [("type", .str "heading"), ("attrs", .obj [("level", .num 2)]),
        ("content", .arr [mkTextNode s])]

/-- The list node created when a run of list lines starts:
`{ type: "bulletList" | "orderedList", content: items }`. -/
def mkListNode (kind : ListKind) (items : List JVal) : JVal :=
  .obj [("type", .str (match kind with
                       | .bullet => "bulletList"
                       | .ordered => "orderedList")),
        ("content", .arr items)]

/-- State of the encoder loop.  The source pushes the open list object into
`content` as soon as it is created and keeps mutating it in place, so blocks
pushed later sit *after* the open list in `content` while items keep being
appended to it.  We model `content` as `before ++ [open list] ++ after`:
`before` holds the blocks before the open list, `curr` the open list's kind
and items (`currentList` / `currentListType`), `after` the blocks pushed
since the open list was created (`after` is empty whenever `curr` is
`none`). -/
structure ConvState where
  before : List JVal
  curr : Option (ListKind × List JVal)
  after : List JVal

/-- Materialise the open list into the block sequence (the effect of
`currentList = null` on the final content order). -/
def flushList (st : ConvState) : ConvState :=
  match st.curr with
  | some (k, items) => ⟨st.before ++ [mkListNode k items] ++ st.after, none, []⟩
  | none => ⟨st.before ++ st.after, none, []⟩

/-- `content.push(block)` while a list may be open. -/
def pushBlock (st : ConvState) (b : JVal) : ConvState :=
  match st.curr with
  | some _ => { st with after := st.after ++ [b] }
  | none => { st with before := st.before ++ [b] }

/-- The numbered-list test `line.trim().match(/^(\d+)\. (.*)/)`: one or more
digits, a period and a space; returns the captured rest of the line. -/
def orderedItem (t : String) : Option String :=
  let ds := t.data.takeWhile Char.isDigit
  if ds ≠ [] && ". ".data.isPrefixOf (t.data.drop ds.length) then
    some (String.mk (t.data.drop (ds.length + 2)))
  else none

/-- One iteration of the encoder's line loop (src/handlers.ts lines 742-845):
blank lines close the open list; bullet and numbered lines extend or start a
list; a short, terminator-free line followed by a blank line (or at the end
of input) becomes a level-2 heading; anything else becomes a paragraph with
the untrimmed line text. -/
def convertStep (line nextLine : String) (isLast : Bool) (st : ConvState) : ConvState :=
  let t := jsTrim line
  if t = "" then flushList st
  else if jsStartsWith t "- " then
    let item := jsDrop t 2
    match st.curr with
    | some (ListKind.bullet, items) =>
      { st with curr := some (ListKind.bullet, items ++ [mkListItemNode item]) }
    | _ =>
      let st' := flushList st
      { st' with curr := some (ListKind.bullet, [mkListItemNode item]) }
  else
    match orderedItem t with
    | some item =>
      match st.curr with
      | some (ListKind.ordered, items) =>
        { st with curr := some (ListKind.ordered, items ++ [mkListItemNode item]) }
      | _ =>
        let st' := flushList st
        { st' with curr := some (ListKind.ordered, [mkListItemNode item]) }
    | none =>
      if jsLength t > 0 && (jsTrim nextLine = "" || isLast) &&
          !jsEndsWith t "." && !jsEndsWith t "?" && !jsEndsWith t "!" &&
          jsLength t < 50 then
        pushBlock st (mkHeadingNode t)
      else
        pushBlock st (mkParagraphNode line)

/-- The encoder's loop over the split lines; `nextLine` is
`lines[i + 1] || ""` and `isLast` is `i === lines.length - 1`. -/
def convertLoop : List String → ConvState → ConvState
  | [], st => st
  | line :: rest, st =>
    convertLoop rest (convertStep line (rest.headD "") rest.isEmpty st)

/-- Embedding of `convertToADF` (src/handlers.ts lines 736-852). -/
def convertToADF (text : String) : JVal :=
  let lines := jsSplitNl text
  let final := flushList (convertLoop lines ⟨[], none, []⟩)
  .obj [("version", .num 1), ("type", .str "doc"), ("content", .arr final.before)]

/-! ### The field-set resolver (src/handlers.ts lines 1039-1067) -/

/-- What the bracket lookup `FIELD_SETS[fieldSet]` can produce: an own data
property (one of the three static field lists), a member inherited from
`Object.prototype` (a truthy value: a built-in function, or the prototype
object itself for `"__proto__"`), or `undefined`. -/
inductive FieldLookup where
  | own : List String → FieldLookup
  | inherited : String → FieldLookup
  | undef : FieldLookup
deriving DecidableEq

/-- The own properties of the `FIELD_SETS` object literal. -/
def FIELD_SETS : List (String × List String) :=
  [("basic", ["summary", "description", "status"]),
   ("navigable", ["*navigable", "Rank"]),
   ("full", ["*navigable", "id", "key", "summary", "description", "status",
             "assignee", "reporter", "created", "updated", "resolutiondate",
             "parent", "subtasks", "issuelinks", "comment", "worklog", "Rank"])]

/-- The property names an object literal inherits from `Object.prototype`;
reading any of them yields a truthy value. -/
def objectPrototypeMembers : List String :=
  ["constructor", "hasOwnProperty", "isPrototypeOf", "propertyIsEnumerable",
   "toLocaleString", "toString", "valueOf", "__proto__",
   "__defineGetter__", "__defineSetter__", "__lookupGetter__", "__lookupSetter__"]

/-- The bracket lookup `FIELD_SETS[k]`: own properties shadow the prototype
chain, names of `Object.prototype` members find the inherited member, and
anything else is `undefined`. -/
def fieldSetsLookup (k : String) : FieldLookup :=
  match List.lookup k FIELD_SETS with
  | some fields => FieldLookup.own fields
  | none =>
    if k ∈ objectPrototypeMembers then FieldLookup.inherited k else FieldLookup.undef

/-- Embedding of `getJiraFields`: `FIELD_SETS[fieldSet] || FIELD_SETS.navigable`.
An own list and an inherited `Object.prototype` member are both truthy and
are returned as-is; only `undefined` falls back to the `navigable` list. -/
def getJiraFields (fieldSet : String) : FieldLookup :=
  match fieldSetsLookup fieldSet with
  | FieldLookup.undef => FieldLookup.own ["*navigable", "Rank"]
  | r => r

/-! ### A sufficient well-formedness condition for exception-free rendering -/

/-- A `marks` property that the mark loop can iterate without throwing. -/
def MarksSafe (c : JVal) : Bool :=
  match c with
  | .arr _ => true
  | .str _ => true
  | c => !c.truthy

/-- An `attrs.level` property that `'#'.repeat` accepts: absent/falsy
(defaulted to 1) or a non-negative number. -/
def LevelSafe (l : JVal) : Bool :=
  !l.truthy || (match l with
                | .num n => decide (0 ≤ n)
                | _ => false)

mutual

/-- Values on which the renderer cannot throw: every object's truthy
`content` is an array of such values, its truthy `marks` is an array or a
string, and its truthy `attrs.level` is a non-negative number. -/
def TotalSafe : JVal → Bool
  | .arr xs => TotalSafeList xs
  | .obj fields =>
    ContentSafe ((JVal.obj fields).getProp "content") &&
    MarksSafe ((JVal.obj fields).getProp "marks") &&
    LevelSafe (((JVal.obj fields).getProp "attrs").getProp "level")
  | _ => true
termination_by v => 2 * sizeOf v + 1
decreasing_by
all_goals simp_wf
all_goals first
| omega
| (simp; omega)
| exact Nat.lt_succ_of_le (le_trans (mul_le_mul_left' (sizeOf_getProp_le _ "content") 2) (by simp))

def ContentSafe : JVal → Bool
  | .arr xs => TotalSafeList xs
  | c => !c.truthy
termination_by c => 2 * sizeOf c
decreasing_by
all_goals simp_wf
all_goals try simp
all_goals omega

def TotalSafeList : List JVal → Bool
  | [] => true
  | x :: xs => TotalSafe x && TotalSafeList xs
termination_by xs => 2 * sizeOf xs
decreasing_by
all_goals simp_wf
all_goals try simp
all_goals omega

end

/-! ### Rendering helper lemmas -/

set_option maxHeartbeats 1600000 in
theorem processContent_arr (xs : List JVal) :
    processContent (.arr xs) = processNodeList xs := by
  rw [processContent.eq_def]

set_option maxHeartbeats 1600000 in
theorem processItemsContent_arr (xs : List JVal) (kind : ListKind) :
    processItemsContent (.arr xs) kind = processItems kind 1 xs := by
  rw [processItemsContent.eq_def]

theorem processNodeTyped_str (node : JVal) (s : String) :
    processNodeTyped node (.str s) = processNodeStr node s := by
  rw [processNodeTyped]

theorem processNode_obj_str (fields : List (String × JVal)) (s : String)
    (h : lookupFields fields "type" = .str s) (hs : s ≠ "") :
    processNode (.obj fields) = processNodeStr (.obj fields) s := by
  rw [processNode]
  rw [show (JVal.obj fields).getProp "type" = lookupFields fields "type" from rfl, h]
  have hc : (!(JVal.obj fields).truthy || !(JVal.str s).truthy) = false := by
    simp [JVal.truthy, hs]
  rw [hc]
  rw [show (if (false = true) then (some "" : Option String)
      else processNodeTyped (JVal.obj fields) (JVal.str s)) =
      processNodeTyped (JVal.obj fields) (JVal.str s) from rfl]
  rw [processNodeTyped]

theorem processNodeStr_doc (node : JVal) :
    processNodeStr node "doc" = joinContent node "\n\n" := by
  rw [processNodeStr]
  simp

theorem processNodeStr_paragraph (node : JVal) :
    processNodeStr node "paragraph" = joinContent node "" := by
  rw [processNodeStr]
  simp

theorem processNodeStr_text (node : JVal) :
    processNodeStr node "text" =
      foldMarks (if (node.getProp "text").truthy then jsToString (node.getProp "text")
                 else "") (node.getProp "marks") := by
  rw [processNodeStr]
  simp

theorem processNodeStr_heading (node : JVal) :
    processNodeStr node "heading" = processHeading node := by
  rw [processNodeStr]
  simp

theorem processNodeStr_bulletList (node : JVal) :
    processNodeStr node "bulletList" = processListNodes node ListKind.bullet := by
  rw [processNodeStr]
  simp

theorem processNodeStr_orderedList (node : JVal) :
    processNodeStr node "orderedList" = processListNodes node ListKind.ordered := by
  rw [processNodeStr]
  simp

theorem processNodeStr_listItem (node : JVal) :
    processNodeStr node "listItem" = joinContent node "\n" := by
  rw [processNodeStr]
  simp

theorem processNodeStr_codeBlock (node : JVal) :
    processNodeStr node "codeBlock" = processCodeBlock node := by
  rw [processNodeStr]
  simp

theorem processNodeStr_blockquote (node : JVal) :
    processNodeStr node "blockquote" = processBlockquote node := by
  rw [processNodeStr]
  simp

theorem processNodeStr_rule (node : JVal) :
    processNodeStr node "rule" = some "---" := by
  rw [processNodeStr]
  simp

theorem processNodeStr_table (node : JVal) :
    processNodeStr node "table" = processTable node := by
  rw [processNodeStr]
  simp

theorem processNodeStr_image (node : JVal) :
    processNodeStr node "image" = processImage node := by
  rw [processNodeStr]
  simp

theorem processNodeStr_hardBreak (node : JVal) :
    processNodeStr node "hardBreak" = some "\n" := by
  rw [processNodeStr]
  simp

theorem processNodeStr_default (node : JVal) (ty : String)
    (h : ty ∉ (["doc", "paragraph", "text", "heading", "bulletList", "orderedList",
                "listItem", "codeBlock", "blockquote", "rule", "table", "image",
                "hardBreak"] : List String)) :
    processNodeStr node ty = joinContent node "" := by
  simp only [List.mem_cons, List.not_mem_nil, or_false, not_or] at h
  rw [processNodeStr]
  simp_all

theorem processNode_mkTextNode (s : String) : processNode (mkTextNode s) = some s := by
  rw [show processNode (mkTextNode s) = processNodeStr (mkTextNode s) "text" from
      processNode_obj_str _ "text" rfl (by decide)]
  rw [processNodeStr_text]
  by_cases hs : s = "" <;>
    simp [mkTextNode, JVal.getProp, lookupFields, JVal.truthy, foldMarks, jsToString, hs]

theorem processNode_mkParagraphNode (s : String) :
    processNode (mkParagraphNode s) = some s := by
  rw [show processNode (mkParagraphNode s) = processNodeStr (mkParagraphNode s) "paragraph" from
      processNode_obj_str _ "paragraph" rfl (by decide)]
  rw [processNodeStr_paragraph, joinContent]
  rw [show (mkParagraphNode s).getProp "content" = JVal.arr [mkTextNode s] from rfl]
  rw [processContent_arr, processNodeList, processNode_mkTextNode, processNodeList]
  simp [jsJoin]

theorem processListItem_mkListItemNode (s : String) (lt : ListKind) (idx : Nat) :
    processListItem (mkListItemNode s) lt idx =
      some ((match lt with
             | ListKind.bullet => "- "
             | ListKind.ordered => toString idx ++ ". ") ++ jsIndentNl s) := by
  rw [processListItem.eq_def]
  simp [mkListItemNode, JVal.getProp, lookupFields, processContent_arr, processNodeList,
        processNode_mkParagraphNode, jsJoin]

theorem processNode_mkListNode (kind : ListKind) (items : List JVal) :
    processNode (mkListNode kind items) =
      match processItems kind 1 items with
      | none => none
      | some rs => some (jsJoin "\n" rs) := by
  cases kind with
  | bullet =>
    rw [show processNode (mkListNode ListKind.bullet items) =
        processNodeStr (mkListNode ListKind.bullet items) "bulletList" from
        processNode_obj_str _ "bulletList" rfl (by decide)]
    rw [processNodeStr_bulletList, processListNodes]
    rw [show (mkListNode ListKind.bullet items).getProp "content" = JVal.arr items from rfl]
    rw [processItemsContent_arr]
  | ordered =>
    rw [show processNode (mkListNode ListKind.ordered items) =
        processNodeStr (mkListNode ListKind.ordered items) "orderedList" from
        processNode_obj_str _ "orderedList" rfl (by decide)]
    rw [processNodeStr_orderedList, processListNodes]
    rw [show (mkListNode ListKind.ordered items).getProp "content" = JVal.arr items from rfl]
    rw [processItemsContent_arr]

/-! ### Small string lemmas -/

theorem jsLength_pos_of_ne_empty {s : String} (h : s ≠ "") : 0 < jsLength s := by
  cases s with
  | mk data =>
    cases data with
    | nil => exact absurd (by decide) h
    | cons c cs => simp [jsLength]

/-! ### Claim theorems -/

/-- C7 (corrected): each of the three recognised identifiers maps to its
static field list, and every other identifier that does not name an
`Object.prototype` member falls back to the `"navigable"` set; the universal
fallback of the claim is false, though — an identifier naming an inherited
`Object.prototype` member (`"toString"`, `"constructor"`, ...) makes the
bracket lookup return that truthy inherited member, so `||` does not fire
and the result is not the `navigable` field list. -/
theorem claim_C7 :
    getJiraFields "basic" = FieldLookup.own ["summary", "description", "status"] ∧
    getJiraFields "navigable" = FieldLookup.own ["*navigable", "Rank"] ∧
    getJiraFields "full" = FieldLookup.own ["*navigable", "id", "key", "summary",
      "description", "status", "assignee", "reporter", "created", "updated",
      "resolutiondate", "parent", "subtasks", "issuelinks", "comment",
      "worklog", "Rank"] ∧
    (∀ s : String, s ≠ "basic" → s ≠ "navigable" → s ≠ "full" →
      s ∉ objectPrototypeMembers →
      getJiraFields s = getJiraFields "navigable") ∧
    (∀ s : String, s ∈ objectPrototypeMembers →
      getJiraFields s = FieldLookup.inherited s) := by
  refine ⟨by decide, by decide, by decide, ?_, ?_⟩
  · intro s h1 h2 h3 h4
    have e1 : (s == "basic") = false := beq_eq_false_iff_ne.mpr h1
    have e2 : (s == "navigable") = false := beq_eq_false_iff_ne.mpr h2
    have e3 : (s == "full") = false := beq_eq_false_iff_ne.mpr h3
    simp [getJiraFields, fieldSetsLookup, FIELD_SETS, List.lookup, e1, e2, e3, h4]
  · intro s hs
    simp only [objectPrototypeMembers, List.mem_cons, List.not_mem_nil,
               or_false] at hs
    rcases hs with rfl | rfl | rfl | rfl | rfl | rfl | rfl | rfl | rfl | rfl | rfl | rfl
    all_goals rfl

/-- Counterexample to C7 as stated: `"toString"` is outside
`{"basic", "navigable", "full"}`, yet `FIELD_SETS["toString"]` finds the
inherited `Object.prototype.toString` — truthy, so the
`|| FIELD_SETS.navigable` fallback does not fire and `getJiraFields`
returns the inherited member, not the `navigable` field list. -/
theorem claim_C7_cex :
    ("toString" : String) ≠ "basic" ∧ ("toString" : String) ≠ "navigable" ∧
    ("toString" : String) ≠ "full" ∧
    getJiraFields "toString" = FieldLookup.inherited "toString" ∧
    getJiraFields "toString" ≠ getJiraFields "navigable" :=
  ⟨by decide, by decide, by decide, rfl, by decide⟩

/-- Witness for C7 at the spec's own example identifier `"bogus"` (fallback)
and at `"toLocaleString"` (inherited member). -/
theorem claim_C7_witness :
    (("bogus" : String) ≠ "basic" ∧ ("bogus" : String) ≠ "navigable" ∧
      ("bogus" : String) ≠ "full" ∧ "bogus" ∉ objectPrototypeMembers ∧
      getJiraFields "bogus" = getJiraFields "navigable") ∧
    ("toLocaleString" ∈ objectPrototypeMembers ∧
      getJiraFields "toLocaleString" = FieldLookup.inherited "toLocaleString") :=
  ⟨⟨by decide, by decide, by decide, by decide,
    claim_C7.2.2.2.1 "bogus" (by decide) (by decide) (by decide) (by decide)⟩,
   ⟨by decide, claim_C7.2.2.2.2 "toLocaleString" (by decide)⟩⟩

/-- The spec's heading rule, stated from its words: the line is immediately
followed by a blank line or is the last line, its trimmed form does not end
in `.`, `?` or `!`, and its trimmed length is under 50 characters. -/
def specHeadingCond (line nextLine : String) (isLast : Bool) : Bool :=
  (jsTrim nextLine = "" || isLast) &&
  !jsEndsWith (jsTrim line) "." &&
  !jsEndsWith (jsTrim line) "?" &&
  !jsEndsWith (jsTrim line) "!" &&
  jsLength (jsTrim line) < 50

/-- C2: a non-blank line that is neither a bullet nor an ordered-list line
becomes a level-2 heading node (with the trimmed text) exactly when the
spec's heading rule holds, and otherwise becomes a paragraph node wrapping a
single text leaf with the untrimmed line; `convertStep` is the body of the
encoder's line loop, with `nextLine`/`isLast` the loop's lookahead.  The
last conjunct checks the classification end to end on a whole input. -/
theorem claim_C2 :
    (∀ (st : ConvState) (line nextLine : String) (isLast : Bool),
      jsTrim line ≠ "" →
      jsStartsWith (jsTrim line) "- " = false →
      orderedItem (jsTrim line) = none →
      convertStep line nextLine isLast st =
        pushBlock st (if specHeadingCond line nextLine isLast
                      then mkHeadingNode (jsTrim line)
                      else mkParagraphNode line)) ∧
    (∀ t : String, ((mkHeadingNode t).getProp "attrs").getProp "level" = .num 2) ∧
    convertToADF "Title\n\nIt ends with a period." =
      .obj [("version", .num 1), ("type", .str "doc"),
            ("content", .arr [mkHeadingNode "Title",
                              mkParagraphNode "It ends with a period."])] := by
  refine ⟨?_, fun t => rfl, rfl⟩
  intro st line nextLine isLast h1 h2 h3
  have hlen : 0 < jsLength (jsTrim line) := jsLength_pos_of_ne_empty h1
  rw [convertStep]
  simp [h1, h2, h3, specHeadingCond, hlen]
  split <;> simp [*]

/-- Witness for C2: the line `"Hello"` at the end of input becomes a heading;
the line `"It is a sentence."` followed by a non-blank line stays a
paragraph. -/
theorem claim_C2_witness :
    convertStep "Hello" "" true ⟨[], none, []⟩ =
      pushBlock ⟨[], none, []⟩ (mkHeadingNode "Hello") ∧
    convertStep "It is a sentence." "more" false ⟨[], none, []⟩ =
      pushBlock ⟨[], none, []⟩ (mkParagraphNode "It is a sentence.") := by
  constructor
  · have h := claim_C2.1 ⟨[], none, []⟩ "Hello" "" true (by decide) (by decide) (by decide)
    rw [h]
    rfl
  · have h := claim_C2.1 ⟨[], none, []⟩ "It is a sentence." "more" false
      (by decide) (by decide) (by decide)
    rw [h]
    rfl

/-! ### Splitting and joining lines -/

theorem jsJoin_foldl_shift (sep : String) (t : List String) (a b : String) :
    t.foldl (fun acc x => acc ++ sep ++ x) (a ++ b) =
      a ++ t.foldl (fun acc x => acc ++ sep ++ x) b := by
  induction t generalizing b with
  | nil => simp
  | cons c cs ih =>
    simp only [List.foldl]
    rw [String.append_assoc, String.append_assoc, ih, String.append_assoc]

theorem jsJoin_cons (sep x y : String) (t : List String) :
    jsJoin sep (x :: y :: t) = x ++ sep ++ jsJoin sep (y :: t) := by
  simp only [jsJoin, List.foldl]
  exact jsJoin_foldl_shift sep t (x ++ sep) y

theorem splitNlChars_no_nl (l : List Char) (h : '\n' ∉ l) : splitNlChars l = [l] := by
  induction l with
  | nil => rfl
  | cons c cs ih =>
    have hc : c ≠ '\n' := fun hc => h (hc ▸ List.mem_cons_self c cs)
    have hcs : '\n' ∉ cs := fun hm => h (List.mem_cons_of_mem c hm)
    simp [splitNlChars, hc, ih hcs]

theorem splitNlChars_append (l1 l2 : List Char) (h : '\n' ∉ l1) :
    splitNlChars (l1 ++ '\n' :: l2) = l1 :: splitNlChars l2 := by
  induction l1 with
  | nil => simp [splitNlChars]
  | cons c cs ih =>
    have hc : c ≠ '\n' := fun hc => h (hc ▸ List.mem_cons_self c cs)
    have hcs : '\n' ∉ cs := fun hm => h (List.mem_cons_of_mem c hm)
    simp only [List.cons_append, splitNlChars, if_neg hc, List.append_eq]
    rw [ih hcs]

theorem jsSplitNl_join (ls : List String) (hne : ls ≠ [])
    (h : ∀ l ∈ ls, '\n' ∉ l.data) : jsSplitNl (jsJoin "\n" ls) = ls := by
  induction ls with
  | nil => exact absurd rfl hne
  | cons x t ih =>
    cases t with
    | nil =>
      have hx : '\n' ∉ x.data := h x (by simp)
      simp [jsJoin, jsSplitNl, splitNlChars_no_nl x.data hx]
    | cons y t' =>
      rw [jsJoin_cons]
      have hx : '\n' ∉ x.data := h x (by simp)
      have hdata : (x ++ "\n" ++ jsJoin "\n" (y :: t')).data =
          x.data ++ '\n' :: (jsJoin "\n" (y :: t')).data := by
        show (x.data ++ ['\n']) ++ (jsJoin "\n" (y :: t')).data =
          x.data ++ '\n' :: (jsJoin "\n" (y :: t')).data
        simp
      rw [jsSplitNl, hdata, splitNlChars_append _ _ hx]
      have ht : jsSplitNl (jsJoin "\n" (y :: t')) = y :: t' :=
        ih (by simp) (fun l hl => h l (List.mem_cons_of_mem x hl))
      simp only [List.map]
      rw [show String.mk x.data = x from rfl]
      have : (splitNlChars (jsJoin "\n" (y :: t')).data).map String.mk = y :: t' := ht
      rw [this]

/-! ### Bullet-line processing -/

theorem convertStep_bullet (s nextLine : String) (isLast : Bool) (st : ConvState)
    (h : jsTrim ("- " ++ s) = "- " ++ s) :
    convertStep ("- " ++ s) nextLine isLast st =
      match st.curr with
      | some (ListKind.bullet, items) =>
        { st with curr := some (ListKind.bullet, items ++ [mkListItemNode s]) }
      | _ =>
        { flushList st with curr := some (ListKind.bullet, [mkListItemNode s]) } := by
  rw [convertStep, h]
  have hne : ("- " ++ s) ≠ "" := by
    intro hc
    have h2 : ("- " ++ s).data = "".data := congrArg String.data hc
    have h3 : ('-' :: ' ' :: s.data) = ([] : List Char) := h2
    exact absurd h3 (by simp)
  have hsw : jsStartsWith ("- " ++ s) "- " = true := by
    show List.isPrefixOf ['-', ' '] ('-' :: ' ' :: s.data) = true
    simp [List.isPrefixOf]
  have hdrop : jsDrop ("- " ++ s) 2 = s := by
    show String.mk (('-' :: ' ' :: s.data).drop 2) = s
    rfl
  simp [hne, hsw, hdrop]

theorem convertLoop_bullet_run (ss : List String) (before after items : List JVal)
    (h : ∀ s ∈ ss, jsTrim ("- " ++ s) = "- " ++ s) :
    convertLoop (ss.map (fun s => "- " ++ s))
        ⟨before, some (ListKind.bullet, items), after⟩ =
      ⟨before, some (ListKind.bullet, items ++ ss.map mkListItemNode), after⟩ := by
  induction ss generalizing items with
  | nil => simp [convertLoop]
  | cons s t ih =>
    simp only [List.map, convertLoop]
    rw [convertStep_bullet _ _ _ _ (h s (by simp))]
    have ht : ∀ x ∈ t, jsTrim ("- " ++ x) = "- " ++ x :=
      fun x hx => h x (List.mem_cons_of_mem s hx)
    simp only []
    rw [ih (items ++ [mkListItemNode s]) ht]
    simp

/-- The content sequence of a rendered document value. -/
def docContent (v : JVal) : List JVal :=
  match v.getProp "content" with
  | .arr xs => xs
  | _ => []

/-- Does a node carry `type: "bulletList"`? -/
def isBulletListNode (v : JVal) : Bool :=
  match v.getProp "type" with
  | .str s => s == "bulletList"
  | _ => false

/-- Counterexample to C4 as stated: the input `"- a\nx.\n- b"` has two
maximal runs of consecutive bullet lines (`"- a"` and `"- b"`, separated by
the paragraph line `"x."`), yet the encoder produces a document whose
content holds exactly ONE `bulletList` node — the open list is not closed by
the intervening paragraph, so the second run's item is appended to the first
run's node, which also ends up *before* the paragraph in the content
sequence.  Under the claim's one-node-per-maximal-run reading the content
would hold two `bulletList` nodes. -/
theorem claim_C4_cex :
    convertToADF "- a\nx.\n- b" =
      .obj [("version", .num 1), ("type", .str "doc"),
            ("content", .arr [mkListNode ListKind.bullet
                                [mkListItemNode "a", mkListItemNode "b"],
                              mkParagraphNode "x."])] ∧
    (docContent (convertToADF "- a\nx.\n- b")).countP isBulletListNode = 1 ∧
    (docContent (convertToADF "- a\nx.\n- b")).length = 2 :=
  ⟨rfl, rfl, rfl⟩

/-- C4 (amended): encoding `"- a\n- b"` produces one `bulletList` with two
`listItem`s `"a"` and `"b"`; in general a whole input consisting of bullet
lines is coalesced into a single `bulletList` node whose item text is
everything after the `"- "` marker.  (As stated the claim fails: the open
bullet list is terminated only by a blank line or an ordered-list line, not
by an intervening paragraph/heading line, so two maximal bullet runs
separated by a paragraph land in the same, earlier `bulletList` node — see
the counterexample.) -/
theorem claim_C4 :
    convertToADF "- a\n- b" =
      .obj [("version", .num 1), ("type", .str "doc"),
            ("content", .arr [mkListNode ListKind.bullet
                                [mkListItemNode "a", mkListItemNode "b"]])] ∧
    (∀ ss : List String, ss ≠ [] →
      (∀ s ∈ ss, jsTrim ("- " ++ s) = "- " ++ s) →
      (∀ s ∈ ss, '\n' ∉ s.data) →
      convertToADF (jsJoin "\n" (ss.map (fun s => "- " ++ s))) =
        .obj [("version", .num 1), ("type", .str "doc"),
              ("content", .arr [mkListNode ListKind.bullet
                                  (ss.map mkListItemNode)])]) := by
  refine ⟨rfl, ?_⟩
  intro ss hne htrim hnl
  rw [convertToADF]
  have hlines : jsSplitNl (jsJoin "\n" (ss.map (fun s => "- " ++ s))) =
      ss.map (fun s => "- " ++ s) := by
    apply jsSplitNl_join
    · simp [hne]
    · intro l hl
      obtain ⟨s, hs, rfl⟩ := List.mem_map.mp hl
      intro hmem
      have : ('-' :: ' ' :: s.data) = ("- " ++ s).data := rfl
      rw [← this] at hmem
      simp at hmem
      exact hnl s hs hmem
  rw [hlines]
  cases ss with
  | nil => exact absurd rfl hne
  | cons s0 t =>
    simp only [List.map, convertLoop]
    rw [convertStep_bullet _ _ _ _ (htrim s0 (by simp))]
    simp only []
    have hst : ({ flushList (⟨[], none, []⟩ : ConvState) with
        curr := some (ListKind.bullet, [mkListItemNode s0]) } : ConvState) =
        ⟨[], some (ListKind.bullet, [mkListItemNode s0]), []⟩ := rfl
    rw [hst]
    rw [convertLoop_bullet_run t [] [] [mkListItemNode s0]
        (fun x hx => htrim x (List.mem_cons_of_mem s0 hx))]
    simp [flushList]

/-- Witness for C4's general part, at the run `["a", "b"]`. -/
theorem claim_C4_witness :
    convertToADF (jsJoin "\n" (["a", "b"].map (fun s => "- " ++ s))) =
      .obj [("version", .num 1), ("type", .str "doc"),
            ("content", .arr [mkListNode ListKind.bullet
                                [mkListItemNode "a", mkListItemNode "b"]])] :=
  claim_C4.2 ["a", "b"] (by decide) (by decide) (by decide)

/-- Top-level rendering of an encoder-produced document. -/
theorem convertADFToMarkdown_doc (blocks : List JVal) :
    convertADFToMarkdown
        (.obj [("version", .num 1), ("type", .str "doc"),
               ("content", .arr blocks)]) =
      match processNodeList blocks with
      | none => none
      | some rs => some (jsTrim (jsJoin "\n\n" rs)) := by
  rw [convertADFToMarkdown]
  simp [JVal.truthy, JVal.isObjLike, JVal.getProp, lookupFields]

/-- C3: encoding `"5. a\n6. b"` yields one `orderedList` with two
`listItem`s; rendering it back produces `"1. a\n2. b"` — the prefixes are
1-based positional indices, the original numerals `5`/`6` are discarded, so
render-after-encode does not reproduce the input (lossy round-trip). -/
theorem claim_C3 :
    convertToADF "5. a\n6. b" =
      .obj [("version", .num 1), ("type", .str "doc"),
            ("content", .arr [mkListNode ListKind.ordered
                                [mkListItemNode "a", mkListItemNode "b"]])] ∧
    convertADFToMarkdown (convertToADF "5. a\n6. b") = some "1. a\n2. b" ∧
    ("1. a\n2. b" : String) ≠ "5. a\n6. b" := by
  refine ⟨rfl, ?_, by decide⟩
  rw [show convertToADF "5. a\n6. b" =
      .obj [("version", .num 1), ("type", .str "doc"),
            ("content", .arr [mkListNode ListKind.ordered
                                [mkListItemNode "a", mkListItemNode "b"]])] from rfl]
  rw [convertADFToMarkdown_doc]
  rw [processNodeList, processNode_mkListNode]
  rw [processItems, processListItem_mkListItemNode]
  rw [processItems, processListItem_mkListItemNode]
  rw [processItems, processNodeList]
  rfl

/-! ### Marks: C5 -/

/-- The mark kinds the renderer recognises (`link` carries an optional
`href`, absent when the mark object has no `attrs`). -/
inductive Mark where
  | strong : Mark
  | em : Mark
  | code : Mark
  | strike : Mark
  | link : Option String → Mark

/-- The ADF value of a mark, as it appears in a `text` node's `marks`. -/
def Mark.toJVal : Mark → JVal
  | .strong => .obj [("type", .str "strong")]
  | .em => .obj [("type", .str "em")]
  | .code => .obj [("type", .str "code")]
  | .strike => .obj [("type", .str "strike")]
  | .link (some h) => .obj [("type", .str "link"), ("attrs", .obj [("href", .str h)])]
  | .link none => .obj [("type", .str "link")]

/-- One mark wrapping, stated from the spec's mark table:
`strong`→`**x**`, `em`→`*x*`, `code`→`` `x` ``, `strike`→`~~x~~`,
`link`→`[x](href)` with `href` defaulting to the empty string when absent. -/
def markWrap (m : Mark) (t : String) : String :=
  match m with
  | .strong => "**" ++ t ++ "**"
  | .em => "*" ++ t ++ "*"
  | .code => "`" ++ t ++ "`"
  | .strike => "~~" ++ t ++ "~~"
  | .link (some h) => "[" ++ t ++ "](" ++ h ++ ")"
  | .link none => "[" ++ t ++ "]()"

/-- A `text` node carrying a marks sequence. -/
def mkMarkedTextNode (s : String) (ms : List Mark) : JVal :=
  .obj [("type", .str "text"), ("text", .str s),
        ("marks", .arr (ms.map Mark.toJVal))]

theorem applyMark_toJVal (t : String) (m : Mark) :
    applyMark t m.toJVal = markWrap m t := by
  cases m with
  | link href =>
    cases href with
    | none =>
      simp [applyMark, Mark.toJVal, markWrap, JVal.getProp, lookupFields, JVal.truthy]
      rw [String.append_assoc]
      rfl
    | some h =>
      by_cases hh : h = "" <;>
        simp [applyMark, Mark.toJVal, markWrap, JVal.getProp, lookupFields,
              JVal.truthy, jsToString, hh]
  | strong => simp [applyMark, Mark.toJVal, markWrap, JVal.getProp, lookupFields]
  | em => simp [applyMark, Mark.toJVal, markWrap, JVal.getProp, lookupFields]
  | code => simp [applyMark, Mark.toJVal, markWrap, JVal.getProp, lookupFields]
  | strike => simp [applyMark, Mark.toJVal, markWrap, JVal.getProp, lookupFields]

/-- C5: marks are applied as nested wrappings in the order they appear in
the `marks` sequence (a left fold of the wrappings over the text); in
particular `text "x"` with `marks [strong, em]` renders `"***x***"` (strong
applied first, em wrapping the result), and a link mark wraps the
accumulated text as `[x](href)`, the href defaulting to the empty string
when absent. -/
theorem claim_C5 :
    (∀ (s : String) (ms : List Mark),
      processNode (mkMarkedTextNode s ms) =
        some (ms.foldl (fun t m => markWrap m t) s)) ∧
    processNode (mkMarkedTextNode "x" [Mark.strong, Mark.em]) = some "***x***" ∧
    (∀ t u : String,
      markWrap (Mark.link (some u)) t = "[" ++ t ++ "](" ++ u ++ ")" ∧
      markWrap (Mark.link none) t = "[" ++ t ++ "]()") := by
  have main : ∀ (s : String) (ms : List Mark),
      processNode (mkMarkedTextNode s ms) =
        some (ms.foldl (fun t m => markWrap m t) s) := by
    intro s ms
    rw [show processNode (mkMarkedTextNode s ms) =
        processNodeStr (mkMarkedTextNode s ms) "text" from
        processNode_obj_str _ "text" rfl (by decide)]
    rw [processNodeStr_text]
    by_cases hs : s = "" <;>
      · simp [mkMarkedTextNode, JVal.getProp, lookupFields, JVal.truthy,
              foldMarks, jsToString, hs, List.foldl_map]
        simp [applyMark_toJVal]
  refine ⟨main, ?_, fun t u => ⟨rfl, rfl⟩⟩
  rw [main "x" [Mark.strong, Mark.em]]
  rfl

/-! ### Blockquote: C8 -/

/-- A blockquote node over arbitrary children. -/
def mkBlockquoteNode (xs : List JVal) : JVal :=
  .obj [("type", .str "blockquote"), ("content", .arr xs)]

theorem processNode_blockquote (xs : List JVal) :
    processNode (mkBlockquoteNode xs) =
      match processNodeList xs with
      | none => none
      | some rs =>
        some (jsJoin "\n"
          ((jsSplitNl (jsJoin "\n\n" rs)).map (fun line => "> " ++ line))) := by
  rw [show processNode (mkBlockquoteNode xs) =
      processNodeStr (mkBlockquoteNode xs) "blockquote" from
      processNode_obj_str _ "blockquote" rfl (by decide)]
  rw [processNodeStr_blockquote, processBlockquote]
  rw [show (mkBlockquoteNode xs).getProp "content" = JVal.arr xs from rfl]
  rw [processContent_arr]

/-- Counterexample to C8 as stated: a blockquote with two paragraphs `"a"`
and `"b"` renders as `"> a\n> \n> b"` — the children are joined by a BLANK
line (`"\n\n"`), and the resulting empty middle line is also prefixed — while
joining the children by single newlines and prefixing, as the claim states,
would give `"> a\n> b"`. -/
theorem claim_C8_cex :
    processNode (mkBlockquoteNode [mkParagraphNode "a", mkParagraphNode "b"]) =
      some "> a\n> \n> b" ∧
    jsJoin "\n" ((jsSplitNl (jsJoin "\n" ["a", "b"])).map (fun line => "> " ++ line)) =
      "> a\n> b" ∧
    ("> a\n> \n> b" : String) ≠ "> a\n> b" := by
  refine ⟨?_, by decide, by decide⟩
  rw [processNode_blockquote]
  rw [processNodeList, processNode_mkParagraphNode]
  rw [processNodeList, processNode_mkParagraphNode]
  rw [processNodeList]
  rfl

/-- C8 (amended): for every blockquote node, the rendered output equals the
renderings of its children joined by blank lines (`"\n\n"`, not single
newlines), with every line of that joined result — including the empty
lines between children — individually prefixed by `"> "`. -/
theorem claim_C8 :
    (∀ (xs : List JVal) (rs : List String),
      processNodeList xs = some rs →
      processNode (mkBlockquoteNode xs) =
        some (jsJoin "\n"
          ((jsSplitNl (jsJoin "\n\n" rs)).map (fun line => "> " ++ line)))) ∧
    processNode (mkBlockquoteNode [mkParagraphNode "quoted text"]) =
      some "> quoted text" := by
  have main : ∀ (xs : List JVal) (rs : List String),
      processNodeList xs = some rs →
      processNode (mkBlockquoteNode xs) =
        some (jsJoin "\n"
          ((jsSplitNl (jsJoin "\n\n" rs)).map (fun line => "> " ++ line))) := by
    intro xs rs h
    rw [processNode_blockquote, h]
  refine ⟨main, ?_⟩
  rw [main [mkParagraphNode "quoted text"] ["quoted text"]
      (by rw [processNodeList, processNode_mkParagraphNode, processNodeList])]
  rfl

/-- Witness for C8's general part at a one-paragraph blockquote. -/
theorem claim_C8_witness :
    processNode (mkBlockquoteNode [mkParagraphNode "hi"]) =
      some (jsJoin "\n"
        ((jsSplitNl (jsJoin "\n\n" ["hi"])).map (fun line => "> " ++ line))) :=
  claim_C8.1 [mkParagraphNode "hi"] ["hi"]
    (by rw [processNodeList, processNode_mkParagraphNode, processNodeList])

/-! ### List items: C9 -/

/-- A `listItem` node over arbitrary block children. -/
def mkListItemBlocks (xs : List JVal) : JVal :=
  .obj [("type", .str "listItem"), ("content", .arr xs)]

theorem processListItem_blocks (xs : List JVal) (lt : ListKind) (idx : Nat) :
    processListItem (mkListItemBlocks xs) lt idx =
      match processNodeList xs with
      | none => none
      | some rs =>
        some ((match lt with
               | ListKind.bullet => "- "
               | ListKind.ordered => toString idx ++ ". ") ++
          jsIndentNl (jsJoin "" rs)) := by
  rw [processListItem.eq_def]
  simp [mkListItemBlocks, JVal.getProp, lookupFields, processContent_arr]

theorem indentNlChars_append (l1 l2 : List Char) (h : '\n' ∉ l1) :
    indentNlChars (l1 ++ '\n' :: l2) = l1 ++ '\n' :: ' ' :: ' ' :: indentNlChars l2 := by
  induction l1 with
  | nil => simp [indentNlChars]
  | cons c cs ih =>
    have hc : c ≠ '\n' := fun hc => h (hc ▸ List.mem_cons_self c cs)
    have hcs : '\n' ∉ cs := fun hm => h (List.mem_cons_of_mem c hm)
    simp only [List.cons_append, indentNlChars, if_neg hc, List.append_eq]
    rw [ih hcs]

/-- Counterexample to C9 as stated: a `listItem` (child of a `bulletList`)
with two paragraph children `"a"` and `"b"` renders as `"- ab"` — the
children are joined with the EMPTY string — while joining them by newlines
and re-indenting, as the claim states, would give `"- a\n  b"`. -/
theorem claim_C9_cex :
    processNode (mkListNode ListKind.bullet
        [mkListItemBlocks [mkParagraphNode "a", mkParagraphNode "b"]]) =
      some "- ab" ∧
    "- " ++ jsIndentNl (jsJoin "\n" ["a", "b"]) = "- a\n  b" ∧
    ("- ab" : String) ≠ "- a\n  b" := by
  refine ⟨?_, by decide, by decide⟩
  rw [processNode_mkListNode]
  rw [processItems, processListItem_blocks]
  rw [processNodeList, processNode_mkParagraphNode]
  rw [processNodeList, processNode_mkParagraphNode]
  rw [processNodeList, processItems]
  rfl

/-- C9 (amended): for every `listItem` rendered as a child of a
`bulletList`/`orderedList`, the renderings of its children are joined by the
EMPTY string (concatenated directly, not newline-joined); the joined result
is then embedded under the list prefix with every internal newline
re-indented by two additional spaces, so continuation lines of nested
content gain two spaces of indentation per nesting level (illustrated by
the nested-list conjunct). -/
theorem claim_C9 :
    (∀ (xs : List JVal) (rs : List String) (lt : ListKind) (idx : Nat),
      processNodeList xs = some rs →
      processListItem (mkListItemBlocks xs) lt idx =
        some ((match lt with
               | ListKind.bullet => "- "
               | ListKind.ordered => toString idx ++ ". ") ++
          jsIndentNl (jsJoin "" rs))) ∧
    (∀ a b : String, '\n' ∉ a.data →
      jsIndentNl (a ++ "\n" ++ b) = a ++ "\n  " ++ jsIndentNl b) ∧
    processNode (mkListNode ListKind.bullet
        [mkListItemBlocks [mkParagraphNode "a",
           mkListNode ListKind.bullet [mkListItemNode "b", mkListItemNode "c"]]]) =
      some "- a- b\n  - c" := by
  refine ⟨?_, ?_, ?_⟩
  · intro xs rs lt idx h
    rw [processListItem_blocks, h]
  · intro a b h
    show String.mk (indentNlChars (a ++ "\n" ++ b).data) = a ++ "\n  " ++ jsIndentNl b
    have hdata : (a ++ "\n" ++ b).data = a.data ++ '\n' :: b.data := by
      show (a.data ++ ['\n']) ++ b.data = a.data ++ '\n' :: b.data
      simp
    rw [hdata, indentNlChars_append a.data b.data h]
    show String.mk (a.data ++ '\n' :: ' ' :: ' ' :: (jsIndentNl b).data) =
      a ++ "\n  " ++ jsIndentNl b
    have : (a ++ "\n  " ++ jsIndentNl b).data =
        a.data ++ '\n' :: ' ' :: ' ' :: (jsIndentNl b).data := by
      show (a.data ++ ['\n', ' ', ' ']) ++ (jsIndentNl b).data =
        a.data ++ '\n' :: ' ' :: ' ' :: (jsIndentNl b).data
      simp
    calc String.mk (a.data ++ '\n' :: ' ' :: ' ' :: (jsIndentNl b).data)
        = String.mk ((a ++ "\n  " ++ jsIndentNl b).data) := by rw [this]
      _ = a ++ "\n  " ++ jsIndentNl b := rfl
  · have hnested : processNode (mkListNode ListKind.bullet
        [mkListItemNode "b", mkListItemNode "c"]) = some "- b\n- c" := by
      rw [processNode_mkListNode]
      rw [processItems, processListItem_mkListItemNode]
      rw [processItems, processListItem_mkListItemNode]
      rw [processItems]
      rfl
    rw [processNode_mkListNode]
    rw [processItems, processListItem_blocks]
    rw [processNodeList, processNode_mkParagraphNode]
    rw [processNodeList, hnested]
    rw [processNodeList]
    rw [processItems]
    rfl

/-- Witness for C9's general part at a one-paragraph list item. -/
theorem claim_C9_witness :
    processListItem (mkListItemBlocks [mkParagraphNode "z"]) ListKind.bullet 1 =
      some ("- " ++ jsIndentNl (jsJoin "" ["z"])) :=
  claim_C9.1 [mkParagraphNode "z"] ["z"] ListKind.bullet 1
    (by rw [processNodeList, processNode_mkParagraphNode, processNodeList])

/-! ### Tables: C6 -/

/-- A table cell whose content is one paragraph of plain text (the cell's
own `type` is never examined by `processTable`). -/
def mkCellNode (s : String) : JVal :=
  .obj [("type", .str "tableCell"), ("content", .arr [mkParagraphNode s])]

/-- A table row of plain-text cells. -/
def mkRowNode (cells : List String) : JVal :=
  .obj [("type", .str "tableRow"), ("content", .arr (cells.map mkCellNode))]

/-- A table of plain-text rows. -/
def mkTableNode (rows : List (List String)) : JVal :=
  .obj [("type", .str "table"), ("content", .arr (rows.map mkRowNode))]

/-- Table rendering stated from the spec's words: escape `|` in every cell,
the first row becomes the header line, a `---` separator per header column
follows it, then the remaining rows, each row formatted `| cell | cell |`;
no rows renders as the empty string. -/
def tableMarkdown (rows : List (List String)) : String :=
  match rows.map (fun r => r.map jsEscapePipes) with
  | [] => ""
  | header :: body =>
    jsJoin "\n"
      (("| " ++ jsJoin " | " header ++ " |")
        :: ("| " ++ jsJoin " | " (header.map (fun _ => "---")) ++ " |")
        :: body.map (fun r => "| " ++ jsJoin " | " r ++ " |"))

theorem processCells_map (cells : List String) :
    processCells (cells.map mkCellNode) = some (cells.map jsEscapePipes) := by
  induction cells with
  | nil => rw [List.map_nil, processCells, List.map_nil]
  | cons s t ih =>
    simp only [List.map]
    rw [processCells]
    rw [show (mkCellNode s).getProp "content" = JVal.arr [mkParagraphNode s] from rfl]
    rw [processContent_arr, processNodeList, processNode_mkParagraphNode, processNodeList]
    rw [ih]
    simp [jsJoin]

theorem processRows_map (rows : List (List String)) :
    processRows (rows.map mkRowNode) =
      some (rows.map (fun r => r.map jsEscapePipes)) := by
  induction rows with
  | nil => rw [List.map_nil, processRows, List.map_nil]
  | cons r t ih =>
    simp only [List.map]
    rw [processRows]
    rw [show (mkRowNode r).getProp "content" = JVal.arr (r.map mkCellNode) from rfl]
    simp only []
    rw [processCells_map, ih]

theorem processNode_mkTableNode (rows : List (List String)) :
    processNode (mkTableNode rows) = some (tableMarkdown rows) := by
  have hdispatch : processNode (mkTableNode rows) = processTable (mkTableNode rows) := by
    rw [show processNode (mkTableNode rows) =
        processNodeStr (mkTableNode rows) "table" from
        processNode_obj_str _ "table" rfl (by decide)]
    rw [processNodeStr_table]
  rw [hdispatch, processTable]
  rw [show (mkTableNode rows).getProp "content" = JVal.arr (rows.map mkRowNode) from rfl]
  simp only []
  cases rows with
  | nil => rfl
  | cons r t =>
    rw [processRows_map, tableMarkdown]
    simp only [List.map, List.isEmpty_cons]
    simp

/-- A row whose `content` is not a sequence is skipped by the row loop. -/
theorem processRows_skip (row : JVal) (rest : List JVal)
    (h : (row.getProp "content").isArr = false) :
    processRows (row :: rest) = processRows rest := by
  rw [processRows]
  cases hc : row.getProp "content" with
  | arr xs => rw [hc] at h; simp [JVal.isArr] at h
  | null => rfl
  | bool b => rfl
  | num n => rfl
  | str s => rfl
  | obj fields => rfl

/-- C6: every table of rendered rows produces escaped cells, a header line,
a `---` separator per header column, then the body rows, all formatted
`| cell | cell |`; the two-row table `[["H1","H2"],["a","b"]]` renders as
exactly three lines; an empty table renders as the empty string; a row whose
`content` is not a sequence is skipped by the row loop; `|` inside cell text
is escaped to `\|`. -/
theorem claim_C6 :
    (∀ rows : List (List String),
      processNode (mkTableNode rows) = some (tableMarkdown rows)) ∧
    processNode (mkTableNode [["H1", "H2"], ["a", "b"]]) =
      some "| H1 | H2 |\n| --- | --- |\n| a | b |" ∧
    (jsSplitNl "| H1 | H2 |\n| --- | --- |\n| a | b |").length = 3 ∧
    processNode (mkTableNode []) = some "" ∧
    (∀ (row : JVal) (rest : List JVal),
      (row.getProp "content").isArr = false →
      processRows (row :: rest) = processRows rest) ∧
    processNode (mkTableNode [["a|b"]]) = some "| a\\|b |\n| --- |" := by
  refine ⟨processNode_mkTableNode, ?_, by decide, ?_, processRows_skip, ?_⟩
  · rw [processNode_mkTableNode]
    decide
  · rw [processNode_mkTableNode]
    decide
  · rw [processNode_mkTableNode]
    decide

/-- Witness for C6's row-skipping part at a row with string content. -/
theorem claim_C6_witness :
    ((JVal.obj [("type", JVal.str "tableRow"),
        ("content", JVal.str "bad")]).getProp "content").isArr = false ∧
    processRows [JVal.obj [("type", JVal.str "tableRow"), ("content", JVal.str "bad")],
                 mkRowNode ["x"]] =
      processRows [mkRowNode ["x"]] :=
  ⟨by decide, claim_C6.2.2.2.2.1
    (JVal.obj [("type", JVal.str "tableRow"), ("content", JVal.str "bad")])
    [mkRowNode ["x"]] (by decide)⟩

/-! ### Trimming: C10 -/

theorem trimChars_idem (l : List Char) : trimChars (trimChars l) = trimChars l := by
  unfold trimChars
  have h1 : ((l.dropWhile isJsWs).rdropWhile isJsWs).dropWhile isJsWs =
      (l.dropWhile isJsWs).rdropWhile isJsWs := by
    cases ht : (l.dropWhile isJsWs).rdropWhile isJsWs with
    | nil => rfl
    | cons x xs =>
      have hpre : (l.dropWhile isJsWs).rdropWhile isJsWs <+: l.dropWhile isJsWs :=
        List.rdropWhile_prefix _ _
      rw [ht] at hpre
      obtain ⟨u, hu⟩ := hpre
      have hne : l.dropWhile isJsWs ≠ [] := by
        intro h0
        rw [h0] at hu
        exact absurd hu (by simp)
      have hq : (l.dropWhile isJsWs).head? = some x := by
        rw [← hu]
        rfl
      have hx : ¬ isJsWs x = true := by
        have hh := List.head_dropWhile_not isJsWs l hne
        have he : (l.dropWhile isJsWs).head? = some ((l.dropWhile isJsWs).head hne) :=
          List.head?_eq_head hne
        rw [hq] at he
        injection he with he
        rw [← he] at hh
        simpa using hh
      rw [List.dropWhile_cons, if_neg hx]
  rw [h1, List.rdropWhile_idempotent]

theorem jsTrim_idem (s : String) : jsTrim (jsTrim s) = jsTrim s := by
  show String.mk (trimChars (String.mk (trimChars s.data)).data) =
    String.mk (trimChars s.data)
  rw [show (String.mk (trimChars s.data)).data = trimChars s.data from rfl]
  rw [trimChars_idem]

theorem processNode_hardBreak :
    processNode (.obj [("type", .str "hardBreak")]) = some "\n" := by
  rw [show processNode (.obj [("type", .str "hardBreak")]) =
      processNodeStr (.obj [("type", .str "hardBreak")]) "hardBreak" from
      processNode_obj_str _ "hardBreak" rfl (by decide)]
  rw [processNodeStr_hardBreak]

theorem processNode_doc (xs : List JVal) :
    processNode (.obj [("type", .str "doc"), ("content", .arr xs)]) =
      match processNodeList xs with
      | none => none
      | some rs => some (jsJoin "\n\n" rs) := by
  rw [show processNode (.obj [("type", .str "doc"), ("content", .arr xs)]) =
      processNodeStr (.obj [("type", .str "doc"), ("content", .arr xs)]) "doc" from
      processNode_obj_str _ "doc" rfl (by decide)]
  rw [processNodeStr_doc, joinContent]
  rw [show (JVal.obj [("type", JVal.str "doc"),
      ("content", JVal.arr xs)]).getProp "content" = JVal.arr xs from rfl]
  rw [processContent_arr]

/-- C10: every string the top-level `convertADFToMarkdown` returns is its
own trim (the final join is trimmed), so a document whose whole content
renders to whitespace — e.g. a doc whose only child is a `hardBreak` —
renders as the empty string, although the `hardBreak` rule alone produces a
newline; the trim happens only at the top-level entry, not when a `doc`
node is rendered recursively inside the tree (`processNode` on the same doc
yields `"\n"` untrimmed). -/
theorem claim_C10 :
    (∀ (v : JVal) (s : String), convertADFToMarkdown v = some s → jsTrim s = s) ∧
    convertADFToMarkdown (.obj [("version", .num 1), ("type", .str "doc"),
        ("content", .arr [.obj [("type", .str "hardBreak")]])]) = some "" ∧
    processNode (.obj [("type", .str "doc"),
        ("content", .arr [.obj [("type", .str "hardBreak")]])]) = some "\n" ∧
    jsTrim "\n" = "" := by
  refine ⟨?_, ?_, ?_, by decide⟩
  · intro v s h
    rw [convertADFToMarkdown] at h
    dsimp only at h
    split at h
    · injection h with h
      rw [← h]
      decide
    · split at h
      · split at h
        · exact absurd h (by simp)
        · injection h with h
          rw [← h]
          exact jsTrim_idem _
      · injection h with h
        rw [← h]
        decide
  · rw [convertADFToMarkdown_doc]
    rw [processNodeList, processNode_hardBreak, processNodeList]
    rfl
  · rw [processNode_doc]
    rw [processNodeList, processNode_hardBreak, processNodeList]
    rfl

/-- Witness for C10's trimming part at the `null` input. -/
theorem claim_C10_witness :
    convertADFToMarkdown JVal.null = some "" ∧ jsTrim "" = "" :=
  ⟨by decide, claim_C10.1 JVal.null "" (by decide)⟩

/-! ### Totality of the renderer on well-formed input: C1 -/

theorem List.sizeOf_pos_jval (xs : List JVal) : 1 ≤ sizeOf xs := by
  cases xs <;> simp <;> omega

theorem TotalSafe_obj (fields : List (String × JVal)) :
    TotalSafe (.obj fields) =
      (ContentSafe ((JVal.obj fields).getProp "content") &&
       MarksSafe ((JVal.obj fields).getProp "marks") &&
       LevelSafe (((JVal.obj fields).getProp "attrs").getProp "level")) := by
  rw [TotalSafe]

theorem TotalSafe_nonobj (v : JVal) (h : v.isObjLike = false) : TotalSafe v = true := by
  cases v with
  | null => rw [TotalSafe] <;> simp
  | bool b => rw [TotalSafe] <;> simp
  | num n => rw [TotalSafe] <;> simp
  | str s => rw [TotalSafe] <;> simp
  | arr xs => exact absurd h (by simp [JVal.isObjLike])
  | obj fields => exact absurd h (by simp [JVal.isObjLike])

theorem TotalSafe_arr (xs : List JVal) : TotalSafe (.arr xs) = TotalSafeList xs := by
  rw [TotalSafe]

theorem TotalSafeList_cons (x : JVal) (xs : List JVal) :
    TotalSafeList (x :: xs) = (TotalSafe x && TotalSafeList xs) := by
  rw [TotalSafeList]

theorem TotalSafeList_nil : TotalSafeList [] = true := by
  rw [TotalSafeList]

theorem ContentSafe_arr (xs : List JVal) : ContentSafe (.arr xs) = TotalSafeList xs := by
  rw [ContentSafe]

theorem ContentSafe_getProp_of_TotalSafe (v : JVal) (h : TotalSafe v = true) :
    ContentSafe (v.getProp "content") = true := by
  cases v with
  | obj fields =>
    rw [TotalSafe_obj] at h
    simp only [Bool.and_eq_true] at h
    exact h.1.1
  | null => rw [show JVal.null.getProp "content" = JVal.null from rfl, ContentSafe] <;> simp [JVal.truthy]
  | bool b => rw [show (JVal.bool b).getProp "content" = JVal.null from rfl, ContentSafe] <;> simp [JVal.truthy]
  | num n => rw [show (JVal.num n).getProp "content" = JVal.null from rfl, ContentSafe] <;> simp [JVal.truthy]
  | str s => rw [show (JVal.str s).getProp "content" = JVal.null from rfl, ContentSafe] <;> simp [JVal.truthy]
  | arr xs => rw [show (JVal.arr xs).getProp "content" = JVal.null from rfl, ContentSafe] <;> simp [JVal.truthy]

theorem foldMarks_isSome (t : String) (m : JVal) (h : MarksSafe m = true) :
    (foldMarks t m).isSome = true := by
  cases m <;> simp [foldMarks, MarksSafe, JVal.truthy] at h ⊢ <;> simp [h]

theorem jsRepeatCount_isSome_of_LevelSafe (l : JVal) (h : LevelSafe l = true) :
    (jsRepeatCount (if l.truthy then l else .num 1)).isSome = true := by
  cases l with
  | null => simp [JVal.truthy, jsRepeatCount]
  | bool b =>
    cases b with
    | false => simp [JVal.truthy, jsRepeatCount]
    | true => simp [LevelSafe, JVal.truthy] at h
  | num n =>
    by_cases hn : n = 0
    · simp [JVal.truthy, hn, jsRepeatCount]
    · simp [LevelSafe, JVal.truthy, hn] at h
      simp [JVal.truthy, hn, jsRepeatCount]
      omega
  | str s =>
    by_cases hs : s = ""
    · simp [JVal.truthy, hs, jsRepeatCount]
    · simp [LevelSafe, JVal.truthy, hs] at h
  | arr xs => simp [LevelSafe, JVal.truthy] at h
  | obj fields => simp [LevelSafe, JVal.truthy] at h

theorem ContentSafe_eq (c : JVal) :
    ContentSafe c = (match c with
                     | .arr xs => TotalSafeList xs
                     | c => !c.truthy) := by
  cases c <;> (rw [ContentSafe] <;> simp)

set_option maxHeartbeats 3200000 in
theorem render_total_bundle (n : Nat) :
    (∀ v, 2 * sizeOf v + 1 ≤ n → TotalSafe v = true →
      (processNode v).isSome = true) ∧
    (∀ c, 2 * sizeOf c ≤ n → ContentSafe c = true →
      (processContent c).isSome = true) ∧
    (∀ xs, 2 * sizeOf xs ≤ n → TotalSafeList xs = true →
      (processNodeList xs).isSome = true) ∧
    (∀ c kind, 2 * sizeOf c ≤ n → ContentSafe c = true →
      (processItemsContent c kind).isSome = true) ∧
    (∀ kind idx xs, 2 * sizeOf xs ≤ n → TotalSafeList xs = true →
      (processItems kind idx xs).isSome = true) ∧
    (∀ v lt idx, 2 * sizeOf v + 1 ≤ n → TotalSafe v = true →
      (processListItem v lt idx).isSome = true) ∧
    (∀ v, 2 * sizeOf v ≤ n → TotalSafe v = true →
      (processTable v).isSome = true) ∧
    (∀ rows, 2 * sizeOf rows ≤ n → TotalSafeList rows = true →
      (processRows rows).isSome = true) ∧
    (∀ cells, 2 * sizeOf cells ≤ n → TotalSafeList cells = true →
      (processCells cells).isSome = true) := by
  induction n with
  | zero =>
    refine ⟨fun v h _ => ?_, fun c h _ => ?_, fun xs h _ => ?_, fun c kind h _ => ?_,
           fun kind idx xs h _ => ?_, fun v lt idx h _ => ?_, fun v h _ => ?_,
           fun rows h _ => ?_, fun cells h _ => ?_⟩
    · exact absurd h (by have := JVal.sizeOf_pos v; omega)
    · exact absurd h (by have := JVal.sizeOf_pos c; omega)
    · exact absurd h (by have := List.sizeOf_pos_jval xs; omega)
    · exact absurd h (by have := JVal.sizeOf_pos c; omega)
    · exact absurd h (by have := List.sizeOf_pos_jval xs; omega)
    · exact absurd h (by have := JVal.sizeOf_pos v; omega)
    · exact absurd h (by have := JVal.sizeOf_pos v; omega)
    · exact absurd h (by have := List.sizeOf_pos_jval rows; omega)
    · exact absurd h (by have := List.sizeOf_pos_jval cells; omega)
  | succ n ih =>
    obtain ⟨ihN, ihC, ihL, ihIC, ihI, ihLI, ihT, ihR, ihCe⟩ := ih
    refine ⟨?_, ?_, ?_, ?_, ?_, ?_, ?_, ?_, ?_⟩
    · -- processNode
      intro v hle hsafe
      cases v with
      | null => rw [processNode.eq_def]; simp [JVal.truthy, JVal.getProp]
      | bool b => rw [processNode.eq_def]; simp [JVal.truthy, JVal.getProp]
      | num m => rw [processNode.eq_def]; simp [JVal.truthy, JVal.getProp]
      | str s => rw [processNode.eq_def]; simp [JVal.truthy, JVal.getProp]
      | arr xs => rw [processNode.eq_def]; simp [JVal.truthy, JVal.getProp]
      | obj fields =>
        have hsafe0 := hsafe
        rw [TotalSafe_obj] at hsafe
        simp only [Bool.and_eq_true] at hsafe
        obtain ⟨⟨hcs, hms⟩, hls⟩ := hsafe
        have hb : 2 * sizeOf ((JVal.obj fields).getProp "content") ≤ n := by
          have h1 := sizeOf_getProp_le (JVal.obj fields) "content"
          omega
        have hpc := ihC _ hb hcs
        have hicB := ihIC _ ListKind.bullet hb hcs
        have hicO := ihIC _ ListKind.ordered hb hcs
        have htab := ihT (JVal.obj fields) (by omega) hsafe0
        have hfold := fun t => foldMarks_isSome t ((JVal.obj fields).getProp "marks") hms
        have hrep := jsRepeatCount_isSome_of_LevelSafe
          (((JVal.obj fields).getProp "attrs").getProp "level") hls
        have hjoin : ∀ sep : String, (joinContent (JVal.obj fields) sep).isSome = true := by
          intro sep
          rw [joinContent]
          cases hc : processContent ((JVal.obj fields).getProp "content") with
          | none => rw [hc] at hpc; simp at hpc
          | some rs => simp
        have hhead : (processHeading (JVal.obj fields)).isSome = true := by
          rw [processHeading]
          cases hk : jsRepeatCount
              (if ((((JVal.obj fields).getProp "attrs").getProp "level")).truthy
               then (((JVal.obj fields).getProp "attrs").getProp "level")
               else JVal.num 1) with
          | none => rw [hk] at hrep; simp at hrep
          | some k =>
            cases hc : processContent ((JVal.obj fields).getProp "content") with
            | none => rw [hc] at hpc; simp at hpc
            | some rs => simp [hk, hc]
        have hlistB : (processListNodes (JVal.obj fields) ListKind.bullet).isSome = true := by
          rw [processListNodes]
          cases hc : processItemsContent ((JVal.obj fields).getProp "content") ListKind.bullet with
          | none => rw [hc] at hicB; simp at hicB
          | some rs => simp
        have hlistO : (processListNodes (JVal.obj fields) ListKind.ordered).isSome = true := by
          rw [processListNodes]
          cases hc : processItemsContent ((JVal.obj fields).getProp "content") ListKind.ordered with
          | none => rw [hc] at hicO; simp at hicO
          | some rs => simp
        have hcode : (processCodeBlock (JVal.obj fields)).isSome = true := by
          rw [processCodeBlock]
          cases hc : processContent ((JVal.obj fields).getProp "content") with
          | none => rw [hc] at hpc; simp at hpc
          | some rs => simp [hc]
        have hbq : (processBlockquote (JVal.obj fields)).isSome = true := by
          rw [processBlockquote]
          cases hc : processContent ((JVal.obj fields).getProp "content") with
          | none => rw [hc] at hpc; simp at hpc
          | some rs => simp
        rw [processNode]
        split
        · simp
        · cases hty : (JVal.obj fields).getProp "type" with
          | str s =>
            rw [processNodeTyped]
            rw [processNodeStr]
            by_cases h1 : s = "doc"
            · rw [if_pos h1]; exact hjoin _
            rw [if_neg h1]
            by_cases h2 : s = "paragraph"
            · rw [if_pos h2]; exact hjoin _
            rw [if_neg h2]
            by_cases h3 : s = "text"
            · rw [if_pos h3]; exact hfold _
            rw [if_neg h3]
            by_cases h4 : s = "heading"
            · rw [if_pos h4]; exact hhead
            rw [if_neg h4]
            by_cases h5 : s = "bulletList"
            · rw [if_pos h5]; exact hlistB
            rw [if_neg h5]
            by_cases h6 : s = "orderedList"
            · rw [if_pos h6]; exact hlistO
            rw [if_neg h6]
            by_cases h7 : s = "listItem"
            · rw [if_pos h7]; exact hjoin _
            rw [if_neg h7]
            by_cases h8 : s = "codeBlock"
            · rw [if_pos h8]; exact hcode
            rw [if_neg h8]
            by_cases h9 : s = "blockquote"
            · rw [if_pos h9]; exact hbq
            rw [if_neg h9]
            by_cases h10 : s = "rule"
            · rw [if_pos h10]; rfl
            rw [if_neg h10]
            by_cases h11 : s = "table"
            · rw [if_pos h11]; exact htab
            rw [if_neg h11]
            by_cases h12 : s = "image"
            · rw [if_pos h12]; rfl
            rw [if_neg h12]
            by_cases h13 : s = "hardBreak"
            · rw [if_pos h13]; rfl
            rw [if_neg h13]
            exact hjoin _
          | null => rw [processNodeTyped]; exact hjoin _
          | bool b => rw [processNodeTyped]; exact hjoin _
          | num m => rw [processNodeTyped]; exact hjoin _
          | arr xs => rw [processNodeTyped]; exact hjoin _
          | obj fs => rw [processNodeTyped]; exact hjoin _
    · -- processContent
      intro c hle hsafe
      rw [ContentSafe_eq] at hsafe
      cases c with
      | arr xs =>
        rw [processContent]
        refine ihL xs ?_ (by simpa using hsafe)
        have hsz : sizeOf (JVal.arr xs) = 1 + sizeOf xs := by simp
        omega
      | null => rw [processContent]; simp
      | bool b =>
        simp [JVal.truthy] at hsafe
        rw [processContent]
        simp [hsafe]
      | num m =>
        simp [JVal.truthy] at hsafe
        rw [processContent]
        simp [hsafe]
      | str s =>
        simp [JVal.truthy] at hsafe
        rw [processContent]
        simp [hsafe]
      | obj fields => simp [JVal.truthy] at hsafe
    · -- processNodeList
      intro xs hle hsafe
      cases xs with
      | nil => rw [processNodeList]; simp
      | cons x t =>
        rw [TotalSafeList_cons] at hsafe
        simp only [Bool.and_eq_true] at hsafe
        obtain ⟨hx, ht⟩ := hsafe
        have hsz : sizeOf (x :: t) = 1 + sizeOf x + sizeOf t := by simp
        have h1 := ihN x (by omega) hx
        have h2 := ihL t (by omega) ht
        rw [processNodeList]
        cases hpx : processNode x with
        | none => rw [hpx] at h1; simp at h1
        | some r =>
          cases hpt : processNodeList t with
          | none => rw [hpt] at h2; simp at h2
          | some rs => simp
    · -- processItemsContent
      intro c kind hle hsafe
      rw [ContentSafe_eq] at hsafe
      cases c with
      | arr xs =>
        rw [processItemsContent]
        refine ihI kind 1 xs ?_ (by simpa using hsafe)
        have hsz : sizeOf (JVal.arr xs) = 1 + sizeOf xs := by simp
        omega
      | null => rw [processItemsContent]; simp
      | bool b =>
        simp [JVal.truthy] at hsafe
        rw [processItemsContent]
        simp [hsafe]
      | num m =>
        simp [JVal.truthy] at hsafe
        rw [processItemsContent]
        simp [hsafe]
      | str s =>
        simp [JVal.truthy] at hsafe
        rw [processItemsContent]
        simp [hsafe]
      | obj fields => simp [JVal.truthy] at hsafe
    · -- processItems
      intro kind idx xs hle hsafe
      cases xs with
      | nil => rw [processItems]; simp
      | cons x t =>
        rw [TotalSafeList_cons] at hsafe
        simp only [Bool.and_eq_true] at hsafe
        obtain ⟨hx, ht⟩ := hsafe
        have hsz : sizeOf (x :: t) = 1 + sizeOf x + sizeOf t := by simp
        have h1 := ihLI x kind idx (by omega) hx
        have h2 := ihI kind (idx + 1) t (by omega) ht
        rw [processItems]
        cases hpx : processListItem x kind idx with
        | none => rw [hpx] at h1; simp at h1
        | some r =>
          cases hpt : processItems kind (idx + 1) t with
          | none => rw [hpt] at h2; simp at h2
          | some rs => simp
    · -- processListItem
      intro v lt idx hle hsafe
      have hcs := ContentSafe_getProp_of_TotalSafe v hsafe
      have hb : 2 * sizeOf (v.getProp "content") ≤ n := by
        have h1 := sizeOf_getProp_le v "content"
        omega
      have hpc := ihC _ hb hcs
      rw [processListItem.eq_def]
      dsimp only
      cases hx : processContent (v.getProp "content") with
      | none => rw [hx] at hpc; simp at hpc
      | some rs => simp
    · -- processTable
      intro v hle hsafe
      rw [processTable]
      cases hc : v.getProp "content" with
      | arr rows =>
        have hrowsafe : TotalSafeList rows = true := by
          have hcs := ContentSafe_getProp_of_TotalSafe v hsafe
          rw [hc, ContentSafe_arr] at hcs
          exact hcs
        have hb : 2 * sizeOf rows ≤ n := by
          have := sizeOf_getProp_arr_lt hc
          omega
        have hpr := ihR rows hb hrowsafe
        dsimp only
        split
        · simp
        · cases hpr2 : processRows rows with
          | none => rw [hpr2] at hpr; simp at hpr
          | some tableRows =>
            cases tableRows with
            | nil => simp
            | cons hd tl => simp
      | null => rfl
      | bool b => rfl
      | num m => rfl
      | str s => rfl
      | obj fields2 => rfl
    · -- processRows
      intro rows hle hsafe
      cases rows with
      | nil => rw [processRows]; simp
      | cons row rest =>
        rw [TotalSafeList_cons] at hsafe
        simp only [Bool.and_eq_true] at hsafe
        obtain ⟨hrow, hrest⟩ := hsafe
        have hsz : sizeOf (row :: rest) = 1 + sizeOf row + sizeOf rest := by simp
        have hrest2 := ihR rest (by omega) hrest
        rw [processRows]
        cases hc : row.getProp "content" with
        | arr cells =>
          have hcellsafe : TotalSafeList cells = true := by
            have hcs := ContentSafe_getProp_of_TotalSafe row hrow
            rw [hc, ContentSafe_arr] at hcs
            exact hcs
          have hb : 2 * sizeOf cells ≤ n := by
            have := sizeOf_getProp_arr_lt hc
            omega
          have hpc := ihCe cells hb hcellsafe
          cases hx : processCells cells with
          | none => rw [hx] at hpc; simp at hpc
          | some cs =>
            cases hr : processRows rest with
            | none => rw [hr] at hrest2; simp at hrest2
            | some rss => simp [hx]
        | null => exact hrest2
        | bool b => exact hrest2
        | num m => exact hrest2
        | str s => exact hrest2
        | obj fields2 => exact hrest2
    · -- processCells
      intro cells hle hsafe
      cases cells with
      | nil => rw [processCells]; simp
      | cons cell rest =>
        rw [TotalSafeList_cons] at hsafe
        simp only [Bool.and_eq_true] at hsafe
        obtain ⟨hcell, hrest⟩ := hsafe
        have hcs := ContentSafe_getProp_of_TotalSafe cell hcell
        have hsz : sizeOf (cell :: rest) = 1 + sizeOf cell + sizeOf rest := by simp
        have hb : 2 * sizeOf (cell.getProp "content") ≤ n := by
          have := sizeOf_getProp_le cell "content"
          omega
        have hpc := ihC _ hb hcs
        have hrest2 := ihCe rest (by omega) hrest
        rw [processCells]
        cases hx : processContent (cell.getProp "content") with
        | none => rw [hx] at hpc; simp at hpc
        | some rs =>
          cases hr : processCells rest with
          | none => rw [hr] at hrest2; simp at hrest2
          | some cs => simp [hx]

/-! ### Totality and fallback behaviour of the two transforms: C1 -/

theorem joinContent_falsy_content (node : JVal) (sep : String)
    (h : (node.getProp "content").truthy = false) :
    joinContent node sep = some "" := by
  rw [joinContent]
  cases hc : node.getProp "content" with
  | null => rw [processContent]; rfl
  | bool b =>
    rw [hc] at h
    simp [JVal.truthy] at h
    subst h
    rw [processContent]
    rfl
  | num n =>
    rw [hc] at h
    simp [JVal.truthy] at h
    subst h
    rw [processContent]
    rfl
  | str s =>
    rw [hc] at h
    simp [JVal.truthy] at h
    subst h
    rw [processContent]
    rfl
  | arr xs => rw [hc] at h; simp [JVal.truthy] at h
  | obj fields => rw [hc] at h; simp [JVal.truthy] at h

theorem convertADFToMarkdown_total (v : JVal) (h : TotalSafe v = true) :
    (convertADFToMarkdown v).isSome = true := by
  rw [convertADFToMarkdown]
  split
  · simp
  · rename_i hv
    cases v with
    | null => simp [JVal.truthy, JVal.isObjLike] at hv
    | bool b => simp [JVal.isObjLike] at hv
    | num n => simp [JVal.isObjLike] at hv
    | str s => simp [JVal.isObjLike] at hv
    | arr ys =>
      dsimp only
      rw [show (if ((JVal.arr ys).getProp "content").truthy = true
               then (JVal.arr ys).getProp "content" else JVal.arr ys) = JVal.arr ys from rfl]
      rw [TotalSafe_arr] at h
      obtain ⟨-, -, ihL, -, -, -, -, -, -⟩ := render_total_bundle (2 * sizeOf ys)
      have hl := ihL ys (le_refl _) h
      cases hp : processNodeList ys with
      | none => rw [hp] at hl; simp at hl
      | some rs => simp [hp]
    | obj fields =>
      dsimp only
      rw [TotalSafe_obj] at h
      simp only [Bool.and_eq_true] at h
      obtain ⟨⟨hcs, -⟩, -⟩ := h
      by_cases ht : ((JVal.obj fields).getProp "content").truthy = true
      · rw [if_pos ht]
        rw [ContentSafe_eq] at hcs
        cases hc : (JVal.obj fields).getProp "content" with
        | arr ys =>
          rw [hc] at hcs
          obtain ⟨-, -, ihL, -, -, -, -, -, -⟩ := render_total_bundle (2 * sizeOf ys)
          have hl := ihL ys (le_refl _) (by simpa using hcs)
          cases hp : processNodeList ys with
          | none => rw [hp] at hl; simp at hl
          | some rs => simp [hp]
        | null => rw [hc] at ht; simp [JVal.truthy] at ht
        | bool b =>
          rw [hc] at ht hcs
          simp [JVal.truthy] at ht hcs
          rw [ht] at hcs
          simp at hcs
        | num n =>
          rw [hc] at ht hcs
          simp [JVal.truthy] at ht hcs
          exact absurd hcs ht
        | str s =>
          rw [hc] at ht hcs
          simp [JVal.truthy] at ht hcs
          exact absurd hcs ht
        | obj fields2 =>
          rw [hc] at hcs
          simp [JVal.truthy] at hcs
      · rw [if_neg ht]
        simp

/-- Counterexample to C1 as stated: the renderer is NOT total on every input
value — a paragraph whose `content` is the (truthy, non-array) number `5`
makes `content.map` throw a `TypeError`, so `convertADFToMarkdown` of a doc
containing it throws (modelled as `none`); and a node with a missing `type`
does NOT fall back to concatenating its rendered children — it renders as
the empty string (`processNode` returns `""` up front), while the children
concatenation of the same node would give `"x"`. -/
theorem claim_C1_cex :
    convertADFToMarkdown
      (.obj [("version", .num 1), ("type", .str "doc"),
             ("content", .arr [.obj [("type", .str "paragraph"),
                                     ("content", .num 5)]])]) = none ∧
    processNode (.obj [("content", .arr [mkTextNode "x"])]) = some "" ∧
    joinContent (.obj [("content", .arr [mkTextNode "x"])]) "" = some "x" := by
  have hA : processNode (.obj [("type", JVal.str "paragraph"),
      ("content", JVal.num 5)]) = none := by
    rw [show processNode (.obj [("type", JVal.str "paragraph"), ("content", JVal.num 5)]) =
        processNodeStr (.obj [("type", JVal.str "paragraph"), ("content", JVal.num 5)])
          "paragraph" from processNode_obj_str _ "paragraph" rfl (by decide)]
    rw [processNodeStr_paragraph, joinContent]
    rw [show (JVal.obj [("type", JVal.str "paragraph"),
        ("content", JVal.num 5)]).getProp "content" = JVal.num 5 from rfl]
    rw [processContent]
    rfl
  refine ⟨?_, ?_, ?_⟩
  · rw [convertADFToMarkdown_doc]
    rw [processNodeList, hA]
  · rw [processNode]
    rfl
  · rw [joinContent]
    rw [show (JVal.obj [("content", JVal.arr [mkTextNode "x"])]).getProp "content" =
        JVal.arr [mkTextNode "x"] from rfl]
    rw [processContent_arr, processNodeList, processNode_mkTextNode, processNodeList]
    rfl

/-- C1 (corrected): `convertToADF` is total and always yields a well-formed
`doc` node (the empty string yields a doc with an empty content sequence),
and `convertADFToMarkdown` returns a string (never throws) on every value
whose objects have array-or-falsy `content`, array-or-string-or-falsy
`marks` and non-negative-number-or-falsy `attrs.level` (`TotalSafe`) — with
non-object input yielding the empty string, a falsy/missing `type` yielding
the empty string, an unrecognized non-empty string `type` falling back to
the children concatenation, and falsy/missing `content` rendering as the
empty string.  (As stated the claim is false: the renderer throws on a
truthy non-array `content`, and a missing `type` does not fall back to the
children concatenation — see the counterexample.) -/
theorem claim_C1 :
    (∀ v : JVal, TotalSafe v = true → (convertADFToMarkdown v).isSome = true) ∧
    (∀ v : JVal, v.isObjLike = false → convertADFToMarkdown v = some "") ∧
    (∀ v : JVal, (v.getProp "type").truthy = false → processNode v = some "") ∧
    (∀ (fields : List (String × JVal)) (s : String),
      lookupFields fields "type" = .str s → s ≠ "" →
      s ∉ (["doc", "paragraph", "text", "heading", "bulletList", "orderedList",
            "listItem", "codeBlock", "blockquote", "rule", "table", "image",
            "hardBreak"] : List String) →
      processNode (.obj fields) = joinContent (.obj fields) "") ∧
    (∀ (v : JVal) (sep : String), (v.getProp "content").truthy = false →
      joinContent v sep = some "") ∧
    (∀ s : String, (convertToADF s).getProp "type" = .str "doc" ∧
      ∃ blocks : List JVal, (convertToADF s).getProp "content" = .arr blocks) ∧
    convertToADF "" =
      .obj [("version", .num 1), ("type", .str "doc"), ("content", .arr [])] := by
  refine ⟨convertADFToMarkdown_total, ?_, ?_, ?_, joinContent_falsy_content, ?_, rfl⟩
  · intro v h
    have hcond : (!(v.truthy && v.isObjLike)) = true := by simp [h]
    rw [convertADFToMarkdown, if_pos hcond]
  · intro v h
    have hcond : (!v.truthy || !(v.getProp "type").truthy) = true := by simp [h]
    rw [processNode, if_pos hcond]
  · intro fields s hl hs hmem
    rw [processNode_obj_str fields s hl hs, processNodeStr_default _ _ hmem]
  · intro s
    exact ⟨rfl, (flushList (convertLoop (jsSplitNl s) ⟨[], none, []⟩)).before, rfl⟩

/-- Witness for C1 at a concrete input: `null` is not object-like and the
renderer maps it to the empty string. -/
theorem claim_C1_witness :
    JVal.null.isObjLike = false ∧ convertADFToMarkdown JVal.null = some "" :=
  ⟨by decide, claim_C1.2.1 JVal.null (by decide)⟩
